import Mathlib

/-!
Shallow Lean embedding of the core of the scherbringFamilyRecipe backend:
the meal-plan generation algorithm (`app/services/planner.py`) and the
consolidated-ingredient export (`app/services/exports.py`,
`app/api/mealplans.py`), together with the parts of the data model
(`app/models/recipe.py`, `app/models/meal_plan.py`) that they use.

Modelling conventions:
* Calendar dates are `Int` day ordinals (days since 1970-01-01, a Thursday).
  `timedelta(days = k)` is `+ k`; `date.weekday()` (Monday = 0 .. Sunday = 6)
  is `(d + 3) % 7`.
* Python's module-level `random` generator is an explicit state `Nat`
  threaded through the computation.  The raw generator is an arbitrary
  function `next : Nat → Nat × Nat` (state to drawn value and new state);
  `random.seed(s)` replaces the state by a hash of the string `s`;
  `random.choice(xs)` indexes `xs` with the drawn value modulo its length.
  All theorems about the planner are proved for every `next`, so nothing
  depends on the concrete pseudo-random stream.
* Python truthiness is modelled explicitly where the source relies on it
  (`if seed:`, `if entry.recipe_id:`, `if constraints.max_cook_time_min ...`).
* `" ".join(recipe.ingredients)` raises `TypeError` when an element is a
  structured `Ingredient` object rather than a `str`; fallible computations
  therefore live in `Except Unit`.
* External collaborators are passed as data: the recipe catalog and the
  saved-plan history are list parameters, the profile staple list a
  `List String`, and the AI ingredient consolidator an opaque function
  parameter (the export path never calls it).
-/

/-- `date.weekday()`: Monday = 0, ..., Sunday = 6, for a day ordinal based at
1970-01-01 (a Thursday, weekday 3). -/
def weekdayInt (d : Int) : Int := (d + 3) % 7

/-- `date.isoformat()` as used for seeding only: an injective textual
rendering of the date. -/
def dateIso (d : Int) : String := toString d

/-- Python truthiness of an `Optional[str]` (`None` and `""` are falsy). -/
def optStrTruthy : Option String → Bool
  | none => false
  | some s => !(s == "")

/-- Python truthiness of an `Optional[int]` field that is validated `ge=0`
(`None` and `0` are falsy). -/
def optNatTruthy : Option Nat → Bool
  | none => false
  | some n => !(n == 0)

/-- `Ingredient` (models/recipe.py): text plus shopping-list inclusion flag. -/
structure Ingredient where
  text : String
  includeInShoppingList : Bool
deriving DecidableEq, Repr

/-- One element of `RecipeBase.ingredients : List[Union[Ingredient, str]]`:
either a legacy plain string or a structured `Ingredient` object. -/
inductive IngredientEntry where
  | str (s : String)
  | obj (i : Ingredient)
deriving DecidableEq, Repr

/-- `ProteinType` enum. -/
inductive ProteinType where
  | beef | chicken | pork | fish | seafood | vegetarian | vegan | other
deriving DecidableEq, Repr, BEq

/-- `MealType` enum. -/
inductive MealType where
  | dinner | lunch | breakfast | snack | misc
deriving DecidableEq, Repr, BEq

/-- The fields of `Recipe` the planner and the exports read. -/
structure Recipe where
  id : String
  title : String
  ingredients : List IngredientEntry
  tags : List String
  protein_type : Option ProteinType
  meal_type : MealType
  cook_time_min : Option Nat
deriving DecidableEq, Repr

/-- `WeekStartDay` enum. -/
inductive WeekStartDay where
  | monday | sunday
deriving DecidableEq, Repr, BEq

/-- `PlannerConstraints` (models/meal_plan.py). -/
structure PlannerConstraints where
  exclude_ingredients : List String
  include_tags : List String
  exclude_tags : List String
  avoid_repeat_weeks : Int
  balance_protein_types : Bool
  max_cook_time_min : Option Nat
  required_recipes : List String
  start_week_on : WeekStartDay
deriving DecidableEq, Repr

/-- `MealPlanEntry` (models/meal_plan.py). -/
structure MealPlanEntry where
  date : Int
  recipe_id : Option String
  notes : Option String
  locked : Bool
deriving DecidableEq, Repr

/-- The fields of a saved `MealPlan` that recency gathering reads. -/
structure MealPlanRec where
  week_start_date : Int
  entries : List MealPlanEntry
deriving DecidableEq, Repr

/-- Case-insensitive substring test: Python's `needle in hay` on lowered
strings is applied to already-lowered arguments by the callers below. -/
def strIn (needle hay : String) : Bool :=
  hay.data.tails.any (fun t => needle.data.isPrefixOf t)

/-- `str.lower()` restricted to ASCII, the alphabet of the data handled here. -/
def pyLower (s : String) : String := String.mk (s.data.map Char.toLower)

/-- `" ".join(recipe.ingredients)`: raises `TypeError` (modelled as
`.error ()`) as soon as an element is a structured `Ingredient` object
rather than a plain string. -/
def pyJoinTexts : List IngredientEntry → Except Unit (List String)
  | [] => .ok []
  | .str s :: rest => (pyJoinTexts rest).map (fun l => s :: l)
  | .obj _ :: _ => .error ()

/-- `" ".join(recipe.ingredients)` itself. -/
def pyJoinIngredients (l : List IngredientEntry) : Except Unit String :=
  (pyJoinTexts l).map (String.intercalate " ")

/-- `recipe.meal_type not in ["breakfast", "lunch", "dinner"]`, negated. -/
def mealTypeOk (r : Recipe) : Bool :=
  r.meal_type == .breakfast || r.meal_type == .lunch || r.meal_type == .dinner

/-- The checks of `_get_eligible_recipes` that follow the exclude-ingredient
check: max cook time (Python truthiness on both sides) and include tags. -/
def lateChecks (cs : PlannerConstraints) (r : Recipe) : Bool :=
  if optNatTruthy cs.max_cook_time_min && optNatTruthy r.cook_time_min
      && decide (cs.max_cook_time_min.getD 0 < r.cook_time_min.getD 0) then
    false
  else if !cs.include_tags.isEmpty
      && !(cs.include_tags.any (fun t => r.tags.contains t)) then
    false
  else
    true

/-- The per-recipe body of `_get_eligible_recipes`: `.ok true` when the
recipe is appended to the eligible list, `.ok false` when it is skipped,
`.error ()` when the exclude-ingredient check raises `TypeError`. -/
def recipeEligibleE (cs : PlannerConstraints) (r : Recipe) : Except Unit Bool :=
  if !(mealTypeOk r) then .ok false
  else if !cs.required_recipes.isEmpty && cs.required_recipes.contains r.id then .ok true
  else if !cs.exclude_tags.isEmpty
      && cs.exclude_tags.any (fun t => r.tags.contains t) then .ok false
  else if !cs.exclude_ingredients.isEmpty then
    match pyJoinIngredients r.ingredients with
    | .error e => .error e
    | .ok txt =>
      let recipe_text := pyLower txt
      if cs.exclude_ingredients.any (fun ing => strIn (pyLower ing) recipe_text) then
        .ok false
      else
        .ok (lateChecks cs r)
  else
    .ok (lateChecks cs r)

/-- `_get_eligible_recipes`, with the repository read replaced by the
catalog parameter: filter the catalog in order, propagating the first
`TypeError`. -/
def getEligibleRecipes (catalog : List Recipe) (cs : PlannerConstraints) :
    Except Unit (List Recipe) :=
  match catalog with
  | [] => .ok []
  | r :: rest =>
    match recipeEligibleE cs r with
    | .error e => .error e
    | .ok b =>
      match getEligibleRecipes rest cs with
      | .error e => .error e
      | .ok tail => .ok (if b then r :: tail else tail)

/-- `_get_recently_used_recipes`, with the plan-history read replaced by the
`history` parameter (the repository returns the plans whose week start falls
in the inclusive range). -/
def getRecentlyUsed (history : List MealPlanRec) (week_start : Int)
    (avoid_weeks : Int) : List String :=
  if avoid_weeks ≤ 0 then []
  else
    let start_check := week_start - 7 * avoid_weeks
    let end_check := week_start - 1
    let recent := history.filter (fun p =>
      decide (start_check ≤ p.week_start_date) && decide (p.week_start_date ≤ end_check))
    (recent.flatMap (fun p => p.entries)).filterMap (fun e =>
      if optStrTruthy e.recipe_id then e.recipe_id else none)

/-- `_generate_dinner_dates`: the one-day normalisation shift, then
`dinners_per_week` consecutive days. -/
def adjustedWeekStart (week_start : Int) (start_week_on : WeekStartDay) : Int :=
  if start_week_on == .sunday && weekdayInt week_start == 0 then week_start - 1
  else if start_week_on == .monday && weekdayInt week_start == 6 then week_start + 1
  else week_start

/-- `_generate_dinner_dates`. -/
def generateDinnerDates (week_start : Int) (dinners_per_week : Nat)
    (start_week_on : WeekStartDay) : List Int :=
  (List.range dinners_per_week).map
    (fun i : Nat => adjustedWeekStart week_start start_week_on + (i : Int))

/-- The dictionary `locked_entries` of `generate_meal_plan`, as a lookup:
built from entries that are locked and whose date is a dinner date, keyed by
date, later entries overwriting earlier ones. -/
def lockedLookup (existing : List MealPlanEntry) (dates : List Int) (d : Int) :
    Option MealPlanEntry :=
  (existing.filter (fun e =>
    e.locked && dates.contains e.date && e.date == d)).getLast?

/-- The string-seeded state of Python's global `random` generator: a
concrete deterministic hash of the seed string (the spec only requires
reproducible seeding within one implementation). -/
def seedState (s : String) : Nat :=
  s.data.foldl (fun h c => (h * 31 + c.toNat) % 2 ^ 61) 7

/-- `random.choice(xs)` on a non-empty list, drawing one value from the
generator; the empty case is unreachable behind the source's guard. -/
def pyChoice (next : Nat → Nat × Nat) (g : Nat) (l : List Recipe) :
    Option Recipe × Nat :=
  match l with
  | [] => (none, g)
  | a :: rest =>
    let p := next g
    (some (((a :: rest).get? (p.1 % (a :: rest).length)).getD a), p.2)

/-- The `available` list of `_select_recipe`: the pool minus used recipes,
falling back (when a pool was supplied) to the eligible set minus used. -/
def selAvailable (eligible : List Recipe) (used : List String)
    (available_pool : Option (List Recipe)) : List Recipe :=
  let pool := match available_pool with
    | some p => p
    | none => eligible
  let available0 := pool.filter (fun r => !(used.contains r.id))
  if available0.isEmpty then
    match available_pool with
    | some _ => eligible.filter (fun r => !(used.contains r.id))
    | none => available0
  else available0

/-- The first candidate narrowing of `_select_recipe`: prefer recipes not
used recently, falling back to the whole available list when the preference
is empty. -/
def selPreferred (recently : List String) (available : List Recipe) : List Recipe :=
  let preferred := available.filter (fun r => !(recently.contains r.id))
  if preferred.isEmpty then available else preferred

/-- The protein filter of `_select_recipe`: recipes whose protein type is
unset or differs from every protein type already used in this plan. -/
def selDifferent (eligible : List Recipe) (used : List String)
    (candidates0 : List Recipe) : List Recipe :=
  let used_proteins := eligible.filterMap (fun r =>
    if used.contains r.id then r.protein_type else none)
  candidates0.filter (fun r =>
    match r.protein_type with
    | none => true
    | some p => !(used_proteins.contains p))

/-- The candidate narrowing of `_select_recipe`: prefer recipes not used
recently, then (when protein balancing is on and something was already
chosen) prefer protein types not used yet in this plan, falling back each
time the preference empties the list. -/
def selCandidates (eligible : List Recipe) (used recently : List String)
    (cs : PlannerConstraints) (available : List Recipe) : List Recipe :=
  let candidates0 := selPreferred recently available
  if cs.balance_protein_types && !used.isEmpty then
    let different := selDifferent eligible used candidates0
    if different.isEmpty then candidates0 else different
  else candidates0

/-- `_select_recipe`. -/
def selectRecipe (next : Nat → Nat × Nat) (eligible : List Recipe)
    (used recently : List String) (cs : PlannerConstraints)
    (available_pool : Option (List Recipe)) (g : Nat) : Option Recipe × Nat :=
  let available := selAvailable eligible used available_pool
  if available.isEmpty then (none, g)
  else pyChoice next g (selCandidates eligible used recently cs available)

/-- The mutable state of the selection loop of `generate_meal_plan`. -/
structure LoopState where
  entries : List MealPlanEntry
  used : List String
  pool : List Recipe
  g : Nat
deriving Repr

/-- The unlocked branch of the selection loop: select, append the entry,
record the recipe as used, shrink the pool, and refill the pool (minus used
recipes) when it empties with dates still unfilled. -/
def stepUnlocked (next : Nat → Nat × Nat) (eligible : List Recipe)
    (recently : List String) (cs : PlannerConstraints) (total : Nat)
    (st : LoopState) (d : Int) : LoopState :=
  match selectRecipe next eligible st.used recently cs (some st.pool) st.g with
  | (none, g2) =>
    { st with
      entries := st.entries ++ [⟨d, none, some "", false⟩]
      g := g2 }
  | (some r, g2) =>
    let entries := st.entries ++ [⟨d, some r.id, some "", false⟩]
    let used := st.used ++ [r.id]
    let pool0 := st.pool.filter (fun x => !(x.id == r.id))
    let pool :=
      if pool0.isEmpty && decide (entries.length < total) then
        eligible.filter (fun x => !(used.contains x.id))
      else pool0
    ⟨entries, used, pool, g2⟩

/-- One iteration of the selection loop of `generate_meal_plan`. -/
def planStep (next : Nat → Nat × Nat) (eligible : List Recipe)
    (recently : List String) (cs : PlannerConstraints)
    (lockedOf : Int → Option MealPlanEntry) (total : Nat)
    (st : LoopState) (d : Int) : LoopState :=
  match lockedOf d with
  | some e =>
    if optStrTruthy e.recipe_id then
      let rid := e.recipe_id.getD ""
      { st with
        entries := st.entries ++ [e]
        used := st.used ++ [rid]
        pool := st.pool.filter (fun r => !(r.id == rid)) }
    else
      { st with entries := st.entries ++ [e] }
  | none => stepUnlocked next eligible recently cs total st d

/-- The `recipe_map` of `generate_meal_plan`: a dict comprehension over the
eligible list, later entries overwriting earlier ones. -/
def recipeMapLookup (eligible : List Recipe) (rid : String) : Option Recipe :=
  (eligible.filter (fun r => r.id == rid)).getLast?

/-- The dictionary returned by `generate_meal_plan`. -/
structure GenerateOut where
  entries : List MealPlanEntry
  recipes : List Recipe
  message : String
deriving DecidableEq, Repr

/-- The string fed to `random.seed`: `f"{week_start_date.isoformat()}-{seed}"`
when the seed is truthy, the bare iso date otherwise. -/
def planSeedString (week_start_date : Int) (seed : Option String) : String :=
  match seed with
  | some s =>
    if !(s == "") then dateIso week_start_date ++ "-" ++ s
    else dateIso week_start_date
  | none => dateIso week_start_date

/-- The `locked_entries` lookup of one generation call: built from the
supplied existing entries (`None` behaving as no entries). -/
def planLockedOf (existing_entries : Option (List MealPlanEntry))
    (dates : List Int) : Int → Option MealPlanEntry :=
  fun d =>
    lockedLookup
      (match existing_entries with
        | some l => l
        | none => []) dates d

/-- The selection loop of `generate_meal_plan` over the dinner dates,
started from empty entries, empty used set and the full eligible pool. -/
def runPlanLoop (next : Nat → Nat × Nat) (eligible : List Recipe)
    (recently : List String) (cs : PlannerConstraints)
    (lockedOf : Int → Option MealPlanEntry) (dates : List Int) (g1 : Nat) :
    LoopState :=
  dates.foldl (planStep next eligible recently cs lockedOf dates.length)
    ⟨[], [], eligible, g1⟩

/-- The `selected_recipes` comprehension of `generate_meal_plan`. -/
def selectedRecipes (eligible : List Recipe) (entries : List MealPlanEntry) :
    List Recipe :=
  entries.filterMap (fun e =>
    if optStrTruthy e.recipe_id then recipeMapLookup eligible (e.recipe_id.getD "")
    else none)

/-- `MealPlannerService.generate_meal_plan`.  `g0` is the state of the
global `random` generator on entry (it is discarded by `random.seed`); the
returned `Nat` is its state on exit.  The catalog and plan history stand for
the repository reads; a `TypeError` from the eligibility filter propagates
as `.error ()`. -/
def generateMealPlan (next : Nat → Nat × Nat) (g0 : Nat)
    (catalog : List Recipe) (history : List MealPlanRec)
    (week_start_date : Int) (dinners_per_week : Nat) (cs : PlannerConstraints)
    (existing_entries : Option (List MealPlanEntry)) (seed : Option String) :
    Except Unit (GenerateOut × Nat) :=
  let g1 := seedState (planSeedString week_start_date seed)
  match getEligibleRecipes catalog cs with
  | .error e => .error e
  | .ok eligible =>
    if eligible.isEmpty then
      .ok (⟨[], [], "No recipes found matching the constraints"⟩, g1)
    else
      let dates := generateDinnerDates week_start_date dinners_per_week cs.start_week_on
      let lockedOf := planLockedOf existing_entries dates
      let recently := getRecentlyUsed history week_start_date cs.avoid_repeat_weeks
      let fin := runPlanLoop next eligible recently cs lockedOf dates g1
      let selected := selectedRecipes eligible fin.entries
      .ok (⟨fin.entries, selected,
        "Generated meal plan with " ++ toString selected.length ++ " recipes"⟩, fin.g)

/-! ## Ingredient consolidation (`app/services/exports.py`) -/

/-- A character of Python's `\s` class (the ASCII part). -/
def pySpace (c : Char) : Bool :=
  c == ' ' || c == '\t' || c == '\n' || c == '\r' || c == '\x0b' || c == '\x0c'

/-- `str.strip()`. -/
def pyStrip (cs : List Char) : List Char :=
  ((cs.dropWhile pySpace).reverse.dropWhile pySpace).reverse

/-- Match a literal pattern at the head, returning the remainder. -/
def dropExact (pat cs : List Char) : Option (List Char) :=
  if pat.isPrefixOf cs then some (cs.drop pat.length) else none

/-- After a unit word the quantity regex requires one or more whitespace
characters; the greedy match swallows the whole run. -/
def reqSpaceThenSkip : List Char → Option (List Char)
  | [] => none
  | c :: cs => if pySpace c then some (cs.dropWhile pySpace) else none

/-- The unit alternation of `_extract_base_ingredient`
`(cups?|tbsp|tsp|teaspoons?|tablespoons?|lbs?|pounds?|oz|ounces?|cloves?|cans?|packages?|ribs?)`
in source order; the flag records an optional plural `s`. -/
def unitAlts : List (String × Bool) :=
  [("cup", true), ("tbsp", false), ("tsp", false), ("teaspoon", true),
   ("tablespoon", true), ("lb", true), ("pound", true), ("oz", false),
   ("ounce", true), ("clove", true), ("can", true), ("package", true),
   ("rib", true)]

/-- Match one unit alternative (greedy optional plural, with regex
backtracking to the singular) followed by mandatory whitespace. -/
def tryUnitAlt (cs : List Char) (alt : String × Bool) : Option (List Char) :=
  let base := alt.1.data
  let withS :=
    if alt.2 then (dropExact (base ++ ['s']) cs).bind reqSpaceThenSkip
    else none
  match withS with
  | some r => some r
  | none => (dropExact base cs).bind reqSpaceThenSkip

/-- The ordered alternation over all unit words. -/
def matchUnitSpace (cs : List Char) : Option (List Char) :=
  unitAlts.foldl (fun acc alt =>
    match acc with
    | some r => some r
    | none => tryUnitAlt cs alt) none

/-- The anchored quantity regex `^\d+\s*(\d+/)?\d*\s*(units)\s+`.
A digit run directly followed by `/` is matched by regex backtracking:
the leading `\d+` yields its last digit to the optional `(\d+/)` group,
which is possible exactly when the run has at least two digits. -/
def matchR1 (cs : List Char) : Option (List Char) :=
  let run := cs.takeWhile Char.isDigit
  if run.isEmpty then none
  else
    let afterRun := cs.drop run.length
    match afterRun with
    | '/' :: tail =>
      if 2 ≤ run.length then
        matchUnitSpace ((tail.dropWhile Char.isDigit).dropWhile pySpace)
      else none
    | _ =>
      let p := afterRun.dropWhile pySpace
      let r2 := p.takeWhile Char.isDigit
      let afterG :=
        if !r2.isEmpty then
          match p.drop r2.length with
          | '/' :: r => r
          | _ => p
        else p
      matchUnitSpace ((afterG.dropWhile Char.isDigit).dropWhile pySpace)

/-- The unicode vulgar fractions of the second anchored quantity regex. -/
def fracChars : List Char := ['¼', '½', '¾', '⅓', '⅔', '⅛', '⅜', '⅝', '⅞']

/-- The anchored regex `^(¼|½|¾|⅓|⅔|⅛|⅜|⅝|⅞)\s*(units)\s+`. -/
def matchR2 : List Char → Option (List Char)
  | [] => none
  | c :: rest =>
    if fracChars.contains c then matchUnitSpace (rest.dropWhile pySpace)
    else none

/-- `re.sub(anchored, '', s)`: strip the anchored match if any. -/
def subAnchored (m : List Char → Option (List Char)) (cs : List Char) : List Char :=
  (m cs).getD cs

/-- The size descriptors of `\s*(large|small|medium|extra)\s+`. -/
def sizeWords : List String := ["large", "small", "medium", "extra"]

/-- The preparation descriptors of `\s*(chopped|diced|sliced|minced|peeled)\s*`. -/
def prepWords : List String := ["chopped", "diced", "sliced", "minced", "peeled"]

/-- Match `\s*(alt1|...|altN)\s+` (when `requireSpaceAfter`) or
`\s*(alt1|...|altN)\s*` at the current position. -/
def matchWordAlt (alts : List String) (requireSpaceAfter : Bool)
    (cs : List Char) : Option (List Char) :=
  let p := cs.dropWhile pySpace
  alts.foldl (fun acc w =>
    match acc with
    | some r => some r
    | none =>
      match dropExact w.data p with
      | some r =>
        if requireSpaceAfter then reqSpaceThenSkip r
        else some (r.dropWhile pySpace)
      | none => none) none

/-- `re.sub(pattern, ' ', s)` for a global (unanchored) pattern: scan left to
right, replacing each non-overlapping match by a single space.  Every
matcher used here consumes at least one character, so fuel `cs.length`
always suffices. -/
def gsubFuel (m : List Char → Option (List Char)) : Nat → List Char → List Char
  | 0, cs => cs
  | _ + 1, [] => []
  | fuel + 1, c :: cs =>
    match m (c :: cs) with
    | some rest => ' ' :: gsubFuel m fuel rest
    | none => c :: gsubFuel m fuel cs

/-- `re.sub(pattern, ' ', s)` with the fuel instantiated. -/
def gsub (m : List Char → Option (List Char)) (cs : List Char) : List Char :=
  gsubFuel m cs.length cs

/-- `re.sub(r'\s+', ' ', s)`: collapse every whitespace run to one space. -/
def collapseWsFuel : Nat → List Char → List Char
  | 0, cs => cs
  | _ + 1, [] => []
  | fuel + 1, c :: cs =>
    if pySpace c then ' ' :: collapseWsFuel fuel (cs.dropWhile pySpace)
    else c :: collapseWsFuel fuel cs

/-- `re.sub(r'\s+', ' ', s)` with the fuel instantiated. -/
def collapseWs (cs : List Char) : List Char := collapseWsFuel cs.length cs

/-- The parenthetical regex `\s*\([^)]*\)\s*` at the current position. -/
def matchParenGroup (cs : List Char) : Option (List Char) :=
  let p := cs.dropWhile pySpace
  match p with
  | '(' :: rest =>
    let inner := rest.takeWhile (fun c => !(c == ')'))
    match rest.drop inner.length with
    | ')' :: r => some (r.dropWhile pySpace)
    | _ => none
  | _ => none

/-- `str.split()`: split on whitespace runs, dropping empty fields. -/
def splitWsFuel : Nat → List Char → List (List Char)
  | 0, _ => []
  | fuel + 1, cs =>
    let t := cs.dropWhile pySpace
    match t with
    | [] => []
    | _ =>
      let w := t.takeWhile (fun c => !(pySpace c))
      w :: splitWsFuel fuel (t.drop w.length)

/-- `str.split()` with the fuel instantiated. -/
def splitWs (cs : List Char) : List (List Char) := splitWsFuel (cs.length + 1) cs

/-- Lowercase a character list (ASCII). -/
def lowerChars (cs : List Char) : List Char := cs.map Char.toLower

/-- Substring test on character lists (`needle in hay`). -/
def charsContain (hay needle : List Char) : Bool :=
  hay.tails.any (fun t => needle.isPrefixOf t)

/-- The spice/herb names special-cased by `_extract_base_ingredient`. -/
def spiceHerbs : List String :=
  ["thyme", "rosemary", "basil", "oregano", "parsley", "cilantro", "sage",
   "salt", "pepper"]

/-- The qualifier words retained alongside a spice name. -/
def qualifierWords : List String :=
  ["fresh", "dried", "kosher", "black", "white", "ground"]

/-- Generic third words dropped from three-word phrases. -/
def genericThird : List String := ["leaves", "powder", "flakes", "bits"]

/-- The spice/herb special case: for the first listed spice occurring in the
phrase, keep the qualifier words and the spice-bearing words; when that
leaves nothing, fall through to the next spice. -/
def spiceCase (ing : List Char) (ws : List (List Char)) : Option String :=
  spiceHerbs.foldl (fun acc spice =>
    match acc with
    | some r => some r
    | none =>
      if charsContain (lowerChars ing) spice.data then
        let relevant := ws.filter (fun w =>
          qualifierWords.contains (String.mk (lowerChars w))
            || charsContain (lowerChars w) spice.data)
        if relevant.isEmpty then none
        else some (pyLower (String.intercalate " " (relevant.map String.mk)))
      else none) none

/-- `ExportService._extract_base_ingredient`. -/
def extractBaseIngredient (ingredient : String) : String :=
  let original := ingredient
  let s1 := subAnchored matchR1 ingredient.data
  let s2 := subAnchored matchR2 s1
  let s3 := gsub (matchWordAlt sizeWords true) s2
  let s4 := gsub (matchWordAlt prepWords false) s3
  let s5 := pyStrip (collapseWs s4)
  let s6 := pyStrip (gsub matchParenGroup s5)
  let ws := splitWs s6
  if ws.length == 0 || decide (s6.length < 3) then pyLower original
  else
    match spiceCase s6 ws with
    | some res => res
    | none =>
      if ws.length ≤ 2 then pyLower (String.mk s6)
      else if ws.length == 3 then
        if !(genericThird.contains (String.mk (lowerChars (ws.getD 2 [])))) then
          pyLower (String.intercalate " " (ws.map String.mk))
        else
          pyLower (String.intercalate " " ((ws.take 2).map String.mk))
      else
        pyLower (String.intercalate " " ((ws.take 2).map String.mk))

/-- `ExportService._normalize_ingredient`: `ingredient.lower().strip()`. -/
def pyNormalizeIngredient (s : String) : String :=
  String.mk (pyStrip (lowerChars s.data))

/-- The grouping key of one ingredient mention: normalisation followed by
base-ingredient extraction, exactly as both export functions compute it. -/
def mentionKey (s : String) : String :=
  extractBaseIngredient (pyNormalizeIngredient s)

/-- `Recipe.get_ingredients_for_shopping_list`: legacy strings are included
by default, structured ingredients honour their flag. -/
def getIngredientsForShoppingList (r : Recipe) : List String :=
  r.ingredients.filterMap (fun i =>
    match i with
    | .str s => some s
    | .obj o => if o.includeInShoppingList then some o.text else none)

/-- `recipe_repo.get_recipe` for the export path: lookup by id. -/
def exportGetRecipe (catalog : List Recipe) (rid : String) : Option Recipe :=
  catalog.find? (fun r => r.id == rid)

/-- The ingredient mentions a plan contributes to consolidation, in entry
order: for each entry with a truthy recipe id whose recipe resolves, its
shopping-list ingredients. -/
def planShoppingMentions (catalog : List Recipe) (entries : List MealPlanEntry) :
    List String :=
  entries.flatMap (fun e =>
    match (if optStrTruthy e.recipe_id then
        exportGetRecipe catalog (e.recipe_id.getD "")
      else none) with
    | some r => getIngredientsForShoppingList r
    | none => [])

/-- `ingredient_counts[base] += 1` on the assoc-list model of the dict. -/
def bumpCount (k : String) : List (String × Nat) → List (String × Nat)
  | [] => [(k, 1)]
  | (k', n) :: rest =>
    if k' == k then (k', n + 1) :: rest else (k', n) :: bumpCount k rest

/-- `if base not in ingredient_base_names: ingredient_base_names[base] = ingredient`. -/
def addName (k orig : String) (names : List (String × String)) :
    List (String × String) :=
  if (names.map Prod.fst).contains k then names else names ++ [(k, orig)]

/-- The consolidation fold over the mention list, carrying the
`ingredient_counts` and `ingredient_base_names` dictionaries. -/
def tallyGo : List String → List (String × Nat) → List (String × String) →
    List (String × Nat) × List (String × String)
  | [], counts, names => (counts, names)
  | m :: rest, counts, names =>
    tallyGo rest (bumpCount (mentionKey m) counts) (addName (mentionKey m) m names)

/-- Dict read with default 0 (`ingredient_counts[base]`). -/
def lookupCount (counts : List (String × Nat)) (k : String) : Nat :=
  match counts.find? (fun p => p.1 == k) with
  | some p => p.2
  | none => 0

/-- Dict read (`ingredient_base_names[base]`, always present when used). -/
def lookupName (names : List (String × String)) (k : String) : String :=
  match names.find? (fun p => p.1 == k) with
  | some p => p.2
  | none => ""

/-- `sorted(...)` on strings: code-point lexicographic order. -/
def pySorted (l : List String) : List String :=
  List.insertionSort (fun a b => a ≤ b) l

/-- One output line: the first-seen surface text, annotated when the key was
contributed more than once. -/
def renderLine (orig : String) (count : Nat) : String :=
  if 1 < count then orig ++ " (needed for " ++ toString count ++ " recipes)"
  else orig

/-- `ExportService.export_consolidated_ingredients`. -/
def exportConsolidatedIngredients (catalog : List Recipe)
    (entries : List MealPlanEntry) : String :=
  let t := tallyGo (planShoppingMentions catalog entries) [] []
  let lines := (pySorted (t.1.map Prod.fst)).map (fun k =>
    renderLine (lookupName t.2 k) (lookupCount t.1 k))
  String.intercalate "\n" lines

/-- `ExportService.export_consolidated_ingredients_with_staples`; the staple
list stands for the profile read. -/
def exportConsolidatedIngredientsWithStaples (catalog : List Recipe)
    (entries : List MealPlanEntry) (staple_groceries : List String) : String :=
  let t := tallyGo (planShoppingMentions catalog entries) [] []
  let staple_items := staple_groceries.filter (fun s =>
    !((t.2.map Prod.fst).contains (mentionKey s)))
  let planLines := (pySorted (t.1.map Prod.fst)).map (fun k =>
    renderLine (lookupName t.2 k) (lookupCount t.1 k))
  String.intercalate "\n" (planLines ++ pySorted staple_items)

/-- The JSON body returned by the two consolidated-ingredient endpoints. -/
structure IngredientsExportResponse where
  ingredients : String
  ai_consolidation_used : Bool
  consolidation_method : String
deriving DecidableEq, Repr

/-- The endpoint `GET /{id}/export/ingredients` (api/mealplans.py).  The AI
consolidation service is passed as an explicit collaborator: its
consolidation function `_aiConsolidate` and its `is_available()` flag.  The
handler only ever reads the flag. -/
def apiExportConsolidatedIngredients
    (_aiConsolidate : List String → Option (List (String × String)))
    (aiAvailable : Bool) (catalog : List Recipe)
    (plan_entries : List MealPlanEntry) : IngredientsExportResponse :=
  { ingredients := exportConsolidatedIngredients catalog plan_entries
    ai_consolidation_used := aiAvailable
    consolidation_method :=
      if aiAvailable then "AI-powered grocery intelligence"
      else "Basic pattern matching" }

/-- The endpoint `GET /{id}/export/ingredients/with-staples`. -/
def apiExportConsolidatedIngredientsWithStaples
    (_aiConsolidate : List String → Option (List (String × String)))
    (aiAvailable : Bool) (catalog : List Recipe)
    (plan_entries : List MealPlanEntry) (staples : List String) :
    IngredientsExportResponse :=
  { ingredients := exportConsolidatedIngredientsWithStaples catalog plan_entries staples
    ai_consolidation_used := aiAvailable
    consolidation_method :=
      if aiAvailable then "AI-powered grocery intelligence"
      else "Basic pattern matching" }

/-! ## Lemmas about the selection primitives -/

theorem mem_of_getLast?_eq {α : Type} {l : List α} {a : α}
    (h : l.getLast? = some a) : a ∈ l := by
  obtain ⟨hne, rfl⟩ :=
    List.mem_getLast?_eq_getLast (l := l) (x := a) (by simp [h, Option.mem_def])
  exact List.getLast_mem hne

theorem lockedLookup_spec {existing : List MealPlanEntry} {dates : List Int}
    {d : Int} {e : MealPlanEntry} (h : lockedLookup existing dates d = some e) :
    e ∈ existing ∧ e.locked = true ∧ e.date = d := by
  have hm := mem_of_getLast?_eq h
  rw [List.mem_filter] at hm
  obtain ⟨he, hcond⟩ := hm
  simp only [Bool.and_eq_true, beq_iff_eq] at hcond
  exact ⟨he, hcond.1.1, hcond.2⟩

theorem pyChoice_mem {next : Nat → Nat × Nat} {g : Nat} {l : List Recipe}
    {r : Recipe} {g2 : Nat} (h : pyChoice next g l = (some r, g2)) : r ∈ l := by
  cases l with
  | nil => simp [pyChoice] at h
  | cons a rest =>
    simp only [pyChoice, Prod.mk.injEq, Option.some.injEq] at h
    obtain ⟨h1, -⟩ := h
    cases hq : (a :: rest).get? ((next g).1 % (a :: rest).length) with
    | none => rw [hq] at h1; simp at h1; rw [← h1]; exact List.mem_cons_self a rest
    | some b => rw [hq] at h1; simp at h1; rw [← h1]; exact List.get?_mem hq

theorem pyChoice_some {next : Nat → Nat × Nat} {g : Nat} {l : List Recipe}
    (hl : l ≠ []) : ∃ r g2, pyChoice next g l = (some r, g2) := by
  cases l with
  | nil => exact absurd rfl hl
  | cons a rest => exact ⟨_, _, rfl⟩

theorem selAvailable_mem {eligible : List Recipe} {used : List String}
    {pool : List Recipe} {r : Recipe}
    (h : r ∈ selAvailable eligible used (some pool)) :
    (r ∈ pool ∨ r ∈ eligible) ∧ used.contains r.id = false := by
  unfold selAvailable at h
  simp only at h
  split at h
  · rw [List.mem_filter] at h
    exact ⟨Or.inr h.1, by simpa using h.2⟩
  · rw [List.mem_filter] at h
    exact ⟨Or.inl h.1, by simpa using h.2⟩

theorem selAvailable_ne_nil {eligible : List Recipe} {used : List String}
    {pool : List Recipe}
    (h : eligible.filter (fun r => !(used.contains r.id)) ≠ []) :
    selAvailable eligible used (some pool) ≠ [] := by
  unfold selAvailable
  simp only
  split
  · exact h
  · rename_i hemp
    intro hc
    rw [hc] at hemp
    simp at hemp

theorem selAvailable_eq_nil {eligible : List Recipe} {used : List String}
    {pool : List Recipe}
    (hall : ∀ r ∈ eligible, used.contains r.id = true)
    (hp : ∀ r ∈ pool, r ∈ eligible) :
    selAvailable eligible used (some pool) = [] := by
  have h1 : pool.filter (fun r => !(used.contains r.id)) = [] := by
    rw [List.filter_eq_nil_iff]
    intro a ha
    simpa using hall a (hp a ha)
  have h2 : eligible.filter (fun r => !(used.contains r.id)) = [] := by
    rw [List.filter_eq_nil_iff]
    intro a ha
    simpa using hall a ha
  unfold selAvailable
  simp only [h1, h2, List.isEmpty_nil, if_true]

theorem selPreferred_subset {recently : List String} {available : List Recipe}
    {r : Recipe} (h : r ∈ selPreferred recently available) : r ∈ available := by
  unfold selPreferred at h
  simp only at h
  split at h
  · exact h
  · exact (List.mem_filter.mp h).1

theorem selPreferred_ne_nil {recently : List String} {available : List Recipe}
    (h : available ≠ []) : selPreferred recently available ≠ [] := by
  unfold selPreferred
  simp only
  split
  · exact h
  · rename_i hp
    intro hc
    rw [hc] at hp
    simp at hp

theorem selCandidates_subset {eligible : List Recipe} {used recently : List String}
    {cs : PlannerConstraints} {available : List Recipe} {r : Recipe}
    (h : r ∈ selCandidates eligible used recently cs available) : r ∈ available := by
  unfold selCandidates at h
  simp only at h
  split at h
  · split at h
    · exact selPreferred_subset h
    · exact selPreferred_subset (List.mem_filter.mp (by exact h)).1
  · exact selPreferred_subset h

theorem selCandidates_ne_nil {eligible : List Recipe} {used recently : List String}
    {cs : PlannerConstraints} {available : List Recipe} (h : available ≠ []) :
    selCandidates eligible used recently cs available ≠ [] := by
  have hp : selPreferred recently available ≠ [] := selPreferred_ne_nil h
  unfold selCandidates
  simp only
  split
  · split
    · exact hp
    · rename_i hd
      intro hc
      rw [hc] at hd
      simp at hd
  · exact hp

theorem selectRecipe_mem {next : Nat → Nat × Nat} {eligible : List Recipe}
    {used recently : List String} {cs : PlannerConstraints} {pool : List Recipe}
    {g : Nat} {r : Recipe} {g2 : Nat}
    (h : selectRecipe next eligible used recently cs (some pool) g = (some r, g2)) :
    (r ∈ pool ∨ r ∈ eligible) ∧ used.contains r.id = false := by
  unfold selectRecipe at h
  simp only at h
  split at h
  · simp at h
  · exact selAvailable_mem (selCandidates_subset (pyChoice_mem h))

theorem selectRecipe_some {next : Nat → Nat × Nat} {eligible : List Recipe}
    {used recently : List String} {cs : PlannerConstraints} {pool : List Recipe}
    {g : Nat}
    (h : eligible.filter (fun r => !(used.contains r.id)) ≠ []) :
    ∃ r g2, selectRecipe next eligible used recently cs (some pool) g = (some r, g2) := by
  have hav : selAvailable eligible used (some pool) ≠ [] := selAvailable_ne_nil h
  unfold selectRecipe
  simp only
  rw [if_neg (by simpa using hav)]
  exact pyChoice_some (selCandidates_ne_nil hav)

theorem selectRecipe_none {next : Nat → Nat × Nat} {eligible : List Recipe}
    {used recently : List String} {cs : PlannerConstraints} {pool : List Recipe}
    {g : Nat}
    (hall : ∀ r ∈ eligible, used.contains r.id = true)
    (hp : ∀ r ∈ pool, r ∈ eligible) :
    selectRecipe next eligible used recently cs (some pool) g = (none, g) := by
  unfold selectRecipe
  simp only
  rw [selAvailable_eq_nil hall hp]
  simp

/-! ## Lemmas about the selection loop -/

theorem foldl_preserve {α β : Type} {f : β → α → β} {P : β → Prop} :
    ∀ (l : List α) (b : β), (∀ x ∈ l, ∀ st, P st → P (f st x)) → P b →
      P (l.foldl f b)
  | [], b, _, hb => hb
  | x :: xs, b, hstep, hb =>
    foldl_preserve xs (f b x)
      (fun y hy st hst => hstep y (List.mem_cons_of_mem x hy) st hst)
      (hstep x (List.mem_cons_self x xs) b hb)

theorem planStep_locked_eq {next : Nat → Nat × Nat} {eligible : List Recipe}
    {recently : List String} {cs : PlannerConstraints}
    {lockedOf : Int → Option MealPlanEntry} {total : Nat} {st : LoopState}
    {d : Int} {e : MealPlanEntry} (h : lockedOf d = some e) :
    planStep next eligible recently cs lockedOf total st d =
      if optStrTruthy e.recipe_id then
        { st with
          entries := st.entries ++ [e]
          used := st.used ++ [e.recipe_id.getD ""]
          pool := st.pool.filter (fun r => !(r.id == e.recipe_id.getD "")) }
      else { st with entries := st.entries ++ [e] } := by
  unfold planStep
  rw [h]

theorem planStep_unlocked_eq {next : Nat → Nat × Nat} {eligible : List Recipe}
    {recently : List String} {cs : PlannerConstraints}
    {lockedOf : Int → Option MealPlanEntry} {total : Nat} {st : LoopState}
    {d : Int} (h : lockedOf d = none) :
    planStep next eligible recently cs lockedOf total st d =
      stepUnlocked next eligible recently cs total st d := by
  unfold planStep
  rw [h]

theorem stepUnlocked_eq_none {next : Nat → Nat × Nat} {eligible : List Recipe}
    {recently : List String} {cs : PlannerConstraints} {total : Nat}
    {st : LoopState} {d : Int} {g2 : Nat}
    (hsel : selectRecipe next eligible st.used recently cs (some st.pool) st.g
      = (none, g2)) :
    stepUnlocked next eligible recently cs total st d =
      { st with entries := st.entries ++ [⟨d, none, some "", false⟩], g := g2 } := by
  unfold stepUnlocked
  rw [hsel]

theorem stepUnlocked_eq_some {next : Nat → Nat × Nat} {eligible : List Recipe}
    {recently : List String} {cs : PlannerConstraints} {total : Nat}
    {st : LoopState} {d : Int} {r : Recipe} {g2 : Nat}
    (hsel : selectRecipe next eligible st.used recently cs (some st.pool) st.g
      = (some r, g2)) :
    stepUnlocked next eligible recently cs total st d =
      { entries := st.entries ++ [⟨d, some r.id, some "", false⟩]
        used := st.used ++ [r.id]
        pool :=
          if (st.pool.filter (fun x => !(x.id == r.id))).isEmpty
              && decide ((st.entries
                ++ [({ date := d, recipe_id := some r.id, notes := some "",
                       locked := false } : MealPlanEntry)]).length < total) then
            eligible.filter (fun x => !((st.used ++ [r.id]).contains x.id))
          else st.pool.filter (fun x => !(x.id == r.id))
        g := g2 } := by
  unfold stepUnlocked
  rw [hsel]

theorem planStep_entries_shape (next : Nat → Nat × Nat) (eligible : List Recipe)
    (recently : List String) (cs : PlannerConstraints)
    (lockedOf : Int → Option MealPlanEntry) (total : Nat) (st : LoopState) (d : Int)
    (hdate : ∀ e, lockedOf d = some e → e.date = d) :
    ∃ e, (planStep next eligible recently cs lockedOf total st d).entries
        = st.entries ++ [e] ∧ e.date = d := by
  rcases hl : lockedOf d with _ | e
  · rw [planStep_unlocked_eq hl]
    rcases hsel : selectRecipe next eligible st.used recently cs (some st.pool) st.g
      with ⟨o, g2⟩
    cases o with
    | none => rw [stepUnlocked_eq_none hsel]; exact ⟨_, rfl, rfl⟩
    | some r => rw [stepUnlocked_eq_some hsel]; exact ⟨_, rfl, rfl⟩
  · rw [planStep_locked_eq hl]
    refine ⟨e, ?_, hdate e hl⟩
    split <;> rfl

theorem planStep_entries_mono (next : Nat → Nat × Nat) (eligible : List Recipe)
    (recently : List String) (cs : PlannerConstraints)
    (lockedOf : Int → Option MealPlanEntry) (total : Nat) (st : LoopState) (d : Int) :
    ∀ x ∈ st.entries, x ∈ (planStep next eligible recently cs lockedOf total st d).entries := by
  intro x hx
  rcases hl : lockedOf d with _ | e
  · rw [planStep_unlocked_eq hl]
    rcases hsel : selectRecipe next eligible st.used recently cs (some st.pool) st.g
      with ⟨o, g2⟩
    cases o with
    | none => rw [stepUnlocked_eq_none hsel]; exact List.mem_append_left _ hx
    | some r => rw [stepUnlocked_eq_some hsel]; exact List.mem_append_left _ hx
  · rw [planStep_locked_eq hl]
    split <;> exact List.mem_append_left _ hx

theorem planStep_used_mono (next : Nat → Nat × Nat) (eligible : List Recipe)
    (recently : List String) (cs : PlannerConstraints)
    (lockedOf : Int → Option MealPlanEntry) (total : Nat) (st : LoopState) (d : Int) :
    ∀ id ∈ st.used, id ∈ (planStep next eligible recently cs lockedOf total st d).used := by
  intro id hid
  rcases hl : lockedOf d with _ | e
  · rw [planStep_unlocked_eq hl]
    rcases hsel : selectRecipe next eligible st.used recently cs (some st.pool) st.g
      with ⟨o, g2⟩
    cases o with
    | none => rw [stepUnlocked_eq_none hsel]; exact hid
    | some r => rw [stepUnlocked_eq_some hsel]; exact List.mem_append_left _ hid
  · rw [planStep_locked_eq hl]
    split
    · exact List.mem_append_left _ hid
    · exact hid

theorem planStep_pool_sub (next : Nat → Nat × Nat) (eligible : List Recipe)
    (recently : List String) (cs : PlannerConstraints)
    (lockedOf : Int → Option MealPlanEntry) (total : Nat) (st : LoopState) (d : Int) :
    ∀ r ∈ (planStep next eligible recently cs lockedOf total st d).pool,
      r ∈ st.pool ∨ r ∈ eligible := by
  intro r hr
  rcases hl : lockedOf d with _ | e
  · rw [planStep_unlocked_eq hl] at hr
    rcases hsel : selectRecipe next eligible st.used recently cs (some st.pool) st.g
      with ⟨o, g2⟩
    cases o with
    | none => rw [stepUnlocked_eq_none hsel] at hr; exact Or.inl hr
    | some r' =>
      rw [stepUnlocked_eq_some hsel] at hr
      simp only at hr
      split at hr
      · exact Or.inr (List.mem_filter.mp hr).1
      · exact Or.inl (List.mem_filter.mp hr).1
  · rw [planStep_locked_eq hl] at hr
    split at hr
    · exact Or.inl (List.mem_filter.mp hr).1
    · exact Or.inl hr

theorem foldPlan_map_date {next : Nat → Nat × Nat} {eligible : List Recipe}
    {recently : List String} {cs : PlannerConstraints}
    {lockedOf : Int → Option MealPlanEntry} {total : Nat}
    (hdate : ∀ d e, lockedOf d = some e → e.date = d) :
    ∀ (ds : List Int) (st : LoopState),
      ((ds.foldl (planStep next eligible recently cs lockedOf total) st).entries.map
          (fun e => e.date))
        = st.entries.map (fun e => e.date) ++ ds
  | [], st => by simp
  | d :: ds, st => by
    rw [List.foldl_cons,
      foldPlan_map_date hdate ds (planStep next eligible recently cs lockedOf total st d)]
    obtain ⟨e, he, hd⟩ := planStep_entries_shape next eligible recently cs lockedOf
      total st d (fun e h => hdate d e h)
    rw [he]
    simp [hd]

theorem foldPlan_entries_mono {next : Nat → Nat × Nat} {eligible : List Recipe}
    {recently : List String} {cs : PlannerConstraints}
    {lockedOf : Int → Option MealPlanEntry} {total : Nat} :
    ∀ (ds : List Int) (st : LoopState) (x : MealPlanEntry), x ∈ st.entries →
      x ∈ ((ds.foldl (planStep next eligible recently cs lockedOf total) st).entries)
  | [], _, _, hx => hx
  | d :: ds, st, x, hx =>
    foldPlan_entries_mono ds _ x
      (planStep_entries_mono next eligible recently cs lockedOf total st d x hx)

theorem foldPlan_locked_mem {next : Nat → Nat × Nat} {eligible : List Recipe}
    {recently : List String} {cs : PlannerConstraints}
    {lockedOf : Int → Option MealPlanEntry} {total : Nat} :
    ∀ (ds : List Int) (st : LoopState) (d : Int) (e : MealPlanEntry), d ∈ ds →
      lockedOf d = some e →
      e ∈ ((ds.foldl (planStep next eligible recently cs lockedOf total) st).entries) := by
  intro ds
  induction ds with
  | nil => intro st d e hd; exact absurd hd (List.not_mem_nil d)
  | cons d0 ds ih =>
    intro st d e hd hl
    rcases List.mem_cons.mp hd with rfl | hd'
    · rw [List.foldl_cons]
      refine foldPlan_entries_mono ds _ e ?_
      rw [planStep_locked_eq hl]
      have : e ∈ st.entries ++ [e] := List.mem_append_right _ (List.mem_singleton.mpr rfl)
      split <;> exact this
    · rw [List.foldl_cons]
      exact ih _ d e hd' hl

theorem generateMealPlan_error {next : Nat → Nat × Nat} {g0 : Nat}
    {catalog : List Recipe} {history : List MealPlanRec} {ws : Int} {n : Nat}
    {cs : PlannerConstraints} {ex : Option (List MealPlanEntry)} {seed : Option String}
    (h : getEligibleRecipes catalog cs = .error ()) :
    generateMealPlan next g0 catalog history ws n cs ex seed = .error () := by
  unfold generateMealPlan
  rw [h]

theorem generateMealPlan_empty {next : Nat → Nat × Nat} {g0 : Nat}
    {catalog : List Recipe} {history : List MealPlanRec} {ws : Int} {n : Nat}
    {cs : PlannerConstraints} {ex : Option (List MealPlanEntry)} {seed : Option String}
    (h : getEligibleRecipes catalog cs = .ok []) :
    generateMealPlan next g0 catalog history ws n cs ex seed =
      .ok (⟨[], [], "No recipes found matching the constraints"⟩,
        seedState (planSeedString ws seed)) := by
  unfold generateMealPlan
  rw [h]
  rfl

theorem generateMealPlan_ok {next : Nat → Nat × Nat} {g0 : Nat}
    {catalog : List Recipe} {history : List MealPlanRec} {ws : Int} {n : Nat}
    {cs : PlannerConstraints} {ex : Option (List MealPlanEntry)} {seed : Option String}
    {eligible : List Recipe}
    (h : getEligibleRecipes catalog cs = .ok eligible)
    (hne : eligible.isEmpty = false) :
    generateMealPlan next g0 catalog history ws n cs ex seed =
      .ok (⟨(runPlanLoop next eligible
               (getRecentlyUsed history ws cs.avoid_repeat_weeks) cs
               (planLockedOf ex (generateDinnerDates ws n cs.start_week_on))
               (generateDinnerDates ws n cs.start_week_on)
               (seedState (planSeedString ws seed))).entries,
             selectedRecipes eligible
               (runPlanLoop next eligible
                 (getRecentlyUsed history ws cs.avoid_repeat_weeks) cs
                 (planLockedOf ex (generateDinnerDates ws n cs.start_week_on))
                 (generateDinnerDates ws n cs.start_week_on)
                 (seedState (planSeedString ws seed))).entries,
             "Generated meal plan with "
               ++ toString (selectedRecipes eligible
                   (runPlanLoop next eligible
                     (getRecentlyUsed history ws cs.avoid_repeat_weeks) cs
                     (planLockedOf ex (generateDinnerDates ws n cs.start_week_on))
                     (generateDinnerDates ws n cs.start_week_on)
                     (seedState (planSeedString ws seed))).entries).length
               ++ " recipes"⟩,
           (runPlanLoop next eligible
             (getRecentlyUsed history ws cs.avoid_repeat_weeks) cs
             (planLockedOf ex (generateDinnerDates ws n cs.start_week_on))
             (generateDinnerDates ws n cs.start_week_on)
             (seedState (planSeedString ws seed))).g) := by
  unfold generateMealPlan
  rw [h]
  simp only [hne]
  rfl

/-! ## Concrete fixtures for witnesses and counterexamples -/

/-- The field defaults of `PlannerConstraints` (models/meal_plan.py). -/
def defaultConstraints : PlannerConstraints :=
  ⟨[], [], [], 4, true, none, [], .monday⟩

/-- The default constraints with the sunday week-start convention. -/
def sundayConstraints : PlannerConstraints :=
  ⟨[], [], [], 4, true, none, [], .sunday⟩

/-- A minimal dinner recipe for concrete runs. -/
def plainRecipe (i : String) (p : Option ProteinType) : Recipe :=
  ⟨i, i, [], [], p, .dinner, none⟩

/-- A concrete raw generator (always drawing 0) for concrete runs; every
planner theorem is proved for all generators. -/
def constNext : Nat → Nat × Nat := fun s => (0, s)

/-! ## Claims C1 to C3 -/

/-- C1: a generation call whose eligible recipe set is empty does not fail:
it returns a (degenerate, empty) entry list on which every entry vacuously
has a null recipe id, together with the explanatory message. -/
theorem C1_empty_eligible_no_failure (next : Nat → Nat × Nat) (g0 : Nat)
    (catalog : List Recipe) (history : List MealPlanRec) (ws : Int) (n : Nat)
    (cs : PlannerConstraints) (ex : Option (List MealPlanEntry))
    (seed : Option String)
    (h : getEligibleRecipes catalog cs = .ok []) :
    ∃ out gf, generateMealPlan next g0 catalog history ws n cs ex seed = .ok (out, gf) ∧
      (∀ e ∈ out.entries, e.recipe_id = none) ∧
      out.message = "No recipes found matching the constraints" ∧
      out.entries = [] :=
  ⟨_, _, generateMealPlan_empty h, by simp, rfl, rfl⟩

/-- Witness for C1 at a concrete empty catalog. -/
theorem C1_witness :
    getEligibleRecipes [] defaultConstraints = .ok [] ∧
    (∃ out gf,
      generateMealPlan constNext 0 [] [] 4 4 defaultConstraints none none = .ok (out, gf) ∧
      (∀ e ∈ out.entries, e.recipe_id = none) ∧
      out.message = "No recipes found matching the constraints" ∧
      out.entries = []) :=
  ⟨rfl, C1_empty_eligible_no_failure constNext 0 [] [] 4 4 defaultConstraints
    none none rfl⟩

/-- C2 as stated is false: (a) with an empty catalog the entry list has 0
entries instead of dinners_per_week = 4; (b) with week_start_date on a
Wednesday (ordinal 6) under the sunday convention no shift is applied, so
the first generated date stays Wednesday (weekday 2) and does not match the
chosen week-start convention (Sunday, weekday 6). -/
theorem C2_counterexample :
    ((generateMealPlan constNext 0 [] [] 4 4 defaultConstraints none none).map
        (fun p => p.1.entries.length) = .ok 0) ∧
    (0 : Nat) ≠ 4 ∧
    ((generateMealPlan constNext 0 [plainRecipe "a" none] [] 6 4 sundayConstraints
        none none).map (fun p => p.1.entries.map (fun e => e.date))
      = .ok [6, 7, 8, 9]) ∧
    sundayConstraints.start_week_on = .sunday ∧
    weekdayInt 6 = 2 ∧
    weekdayInt 6 ≠ 6 := by
  refine ⟨by rfl, by decide, by rfl, rfl, by decide, by decide⟩

/-- C2 (amended): for every generation call whose eligible recipe set is
non-empty, the entry list has exactly dinners_per_week entries, in strictly
increasing date order, and their dates are the dinners_per_week consecutive
days starting at week_start_date adjusted by the one-day shift of
`_generate_dinner_dates` (back one day exactly when start_week_on is sunday
and week_start falls on a Monday; forward one day exactly when
start_week_on is monday and week_start falls on a Sunday; unshifted
otherwise, even when the weekday disagrees with the convention). -/
theorem C2_entry_dates (next : Nat → Nat × Nat) (g0 : Nat) (catalog : List Recipe)
    (history : List MealPlanRec) (ws : Int) (n : Nat) (cs : PlannerConstraints)
    (ex : Option (List MealPlanEntry)) (seed : Option String)
    (eligible : List Recipe)
    (h : getEligibleRecipes catalog cs = .ok eligible)
    (hne : eligible ≠ []) :
    ∃ out gf, generateMealPlan next g0 catalog history ws n cs ex seed = .ok (out, gf) ∧
      out.entries.length = n ∧
      out.entries.map (fun e => e.date) = generateDinnerDates ws n cs.start_week_on ∧
      (∀ i : Nat, i < n →
        (out.entries.map (fun e => e.date))[i]?
          = some (adjustedWeekStart ws cs.start_week_on + (i : Int))) ∧
      List.Pairwise (fun a b : Int => a < b) (out.entries.map (fun e => e.date)) := by
  have hne' : eligible.isEmpty = false := by
    cases eligible with
    | nil => exact absurd rfl hne
    | cons a l => rfl
  have hdate : ∀ d e,
      planLockedOf ex (generateDinnerDates ws n cs.start_week_on) d = some e →
      e.date = d := by
    intro d e hd
    exact (lockedLookup_spec hd).2.2
  have hmap :
      ((runPlanLoop next eligible (getRecentlyUsed history ws cs.avoid_repeat_weeks) cs
          (planLockedOf ex (generateDinnerDates ws n cs.start_week_on))
          (generateDinnerDates ws n cs.start_week_on)
          (seedState (planSeedString ws seed))).entries.map (fun e => e.date))
        = generateDinnerDates ws n cs.start_week_on := by
    unfold runPlanLoop
    rw [foldPlan_map_date hdate]
    simp
  refine ⟨_, _, generateMealPlan_ok h hne', ?_, hmap, ?_, ?_⟩
  · have hlen := congrArg List.length hmap
    rw [List.length_map] at hlen
    rw [hlen]
    unfold generateDinnerDates
    rw [List.length_map, List.length_range]
  · intro i hi
    rw [hmap]
    unfold generateDinnerDates
    rw [List.getElem?_map, List.getElem?_range hi]
    rfl
  · rw [hmap]
    unfold generateDinnerDates
    exact List.Pairwise.map _ (fun a b hab => by omega) (List.pairwise_lt_range n)

/-- Witness for C2 (amended) at a concrete one-recipe catalog. -/
theorem C2_witness :
    getEligibleRecipes [plainRecipe "a" none] defaultConstraints
        = .ok [plainRecipe "a" none] ∧
    [plainRecipe "a" none] ≠ ([] : List Recipe) ∧
    (∃ out gf,
      generateMealPlan constNext 0 [plainRecipe "a" none] [] 4 4 defaultConstraints
          none none = .ok (out, gf) ∧
      out.entries.length = 4 ∧
      out.entries.map (fun e => e.date)
        = generateDinnerDates 4 4 defaultConstraints.start_week_on ∧
      (∀ i : Nat, i < 4 →
        (out.entries.map (fun e => e.date))[i]?
          = some (adjustedWeekStart 4 defaultConstraints.start_week_on + (i : Int))) ∧
      List.Pairwise (fun a b : Int => a < b) (out.entries.map (fun e => e.date))) :=
  ⟨rfl, by decide,
    C2_entry_dates constNext 0 [plainRecipe "a" none] [] 4 4 defaultConstraints
      none none [plainRecipe "a" none] rfl (by decide)⟩

/-- C3: generation is deterministic: the incoming state of the global
random generator is discarded by the seeding step, so two calls with the
same week, seed, catalog, history, constraints, dinner count and existing
entries return identical results (entries, recipes and message alike),
whatever state the generator was left in by earlier calls. -/
theorem C3_determinism (next : Nat → Nat × Nat) (g0 g1 : Nat)
    (catalog : List Recipe) (history : List MealPlanRec) (ws : Int) (n : Nat)
    (cs : PlannerConstraints) (ex : Option (List MealPlanEntry))
    (seed : Option String) :
    generateMealPlan next g0 catalog history ws n cs ex seed
      = generateMealPlan next g1 catalog history ws n cs ex seed := rfl

/-! ## Claim C4 -/

/-- The recipe ids of the freshly generated (non-locked) entries of a plan. -/
def genIds (es : List MealPlanEntry) : List String :=
  (es.filter (fun e => !e.locked)).filterMap (fun e => e.recipe_id)

theorem genIds_append (es : List MealPlanEntry) (e : MealPlanEntry) :
    genIds (es ++ [e]) = genIds es ++ genIds [e] := by
  simp [genIds]

theorem genIds_single_locked {e : MealPlanEntry} (h : e.locked = true) :
    genIds [e] = [] := by
  simp [genIds, h]

theorem genIds_single_none {d : Int} :
    genIds [⟨d, none, some "", false⟩] = [] := by
  simp [genIds]

theorem genIds_single_some {d : Int} {rid : String} :
    genIds [⟨d, some rid, some "", false⟩] = [rid] := by
  simp [genIds]

theorem planStep_genIds {next : Nat → Nat × Nat} {eligible : List Recipe}
    {recently : List String} {cs : PlannerConstraints}
    {lockedOf : Int → Option MealPlanEntry} {total : Nat}
    (hlkd : ∀ d e, lockedOf d = some e → e.locked = true) (d : Int) (st : LoopState)
    (h : (genIds st.entries).Nodup ∧ ∀ id ∈ genIds st.entries, id ∈ st.used) :
    (genIds (planStep next eligible recently cs lockedOf total st d).entries).Nodup ∧
      ∀ id ∈ genIds (planStep next eligible recently cs lockedOf total st d).entries,
        id ∈ (planStep next eligible recently cs lockedOf total st d).used := by
  obtain ⟨hnd, hsub⟩ := h
  rcases hl : lockedOf d with _ | e
  · rw [planStep_unlocked_eq hl]
    rcases hsel : selectRecipe next eligible st.used recently cs (some st.pool) st.g
      with ⟨o, g2⟩
    cases o with
    | none =>
      rw [stepUnlocked_eq_none hsel]
      dsimp only
      rw [genIds_append, genIds_single_none, List.append_nil]
      exact ⟨hnd, hsub⟩
    | some r =>
      rw [stepUnlocked_eq_some hsel]
      dsimp only
      have hfresh : r.id ∉ st.used := by simpa using (selectRecipe_mem hsel).2
      rw [genIds_append, genIds_single_some]
      constructor
      · rw [List.nodup_append]
        refine ⟨hnd, List.nodup_singleton _, ?_⟩
        intro x hx hx1
        rw [List.mem_singleton] at hx1
        subst hx1
        exact hfresh (hsub _ hx)
      · intro id hid
        rcases List.mem_append.mp hid with hid0 | hid1
        · exact List.mem_append_left _ (hsub id hid0)
        · rw [List.mem_singleton] at hid1
          subst hid1
          exact List.mem_append_right _ (List.mem_singleton.mpr rfl)
  · rw [planStep_locked_eq hl]
    have he : e.locked = true := hlkd d e hl
    split
    · dsimp only
      rw [genIds_append, genIds_single_locked he, List.append_nil]
      exact ⟨hnd, fun id hid => List.mem_append_left _ (hsub id hid)⟩
    · dsimp only
      rw [genIds_append, genIds_single_locked he, List.append_nil]
      exact ⟨hnd, hsub⟩

theorem planStep_pool_used_disjoint {next : Nat → Nat × Nat} {eligible : List Recipe}
    {recently : List String} {cs : PlannerConstraints}
    {lockedOf : Int → Option MealPlanEntry} {total : Nat} (d : Int) (st : LoopState)
    (h : ∀ r ∈ st.pool, ¬ r.id ∈ st.used) :
    ∀ r ∈ (planStep next eligible recently cs lockedOf total st d).pool,
      ¬ r.id ∈ (planStep next eligible recently cs lockedOf total st d).used := by
  rcases hl : lockedOf d with _ | e
  · rw [planStep_unlocked_eq hl]
    rcases hsel : selectRecipe next eligible st.used recently cs (some st.pool) st.g
      with ⟨o, g2⟩
    cases o with
    | none => rw [stepUnlocked_eq_none hsel]; exact h
    | some r' =>
      rw [stepUnlocked_eq_some hsel]
      dsimp only
      intro r hr
      split at hr
      · intro hmem
        have hfc := (List.mem_filter.mp hr).2
        simp only [Bool.not_eq_true'] at hfc
        simp at hfc
        rcases List.mem_append.mp hmem with hm0 | hm1
        · exact hfc.1 hm0
        · rw [List.mem_singleton] at hm1
          exact hfc.2 hm1
      · obtain ⟨hrp, hrid⟩ := List.mem_filter.mp hr
        intro hmem
        rcases List.mem_append.mp hmem with hm0 | hm1
        · exact h r hrp hm0
        · rw [List.mem_singleton] at hm1
          simp [hm1] at hrid
  · rw [planStep_locked_eq hl]
    split
    · dsimp only
      intro r hr
      obtain ⟨hrp, hrid⟩ := List.mem_filter.mp hr
      intro hmem
      rcases List.mem_append.mp hmem with hm0 | hm1
      · exact h r hrp hm0
      · rw [List.mem_singleton] at hm1
        simp [hm1] at hrid
    · exact h

/-- C4 is false as stated: with 5 eligible recipes and dinners_per_week = 4
(the eligible set is not smaller than dinners_per_week), a locked existing
entry at a later date can duplicate a recipe id the run already assigned to
an earlier entry. -/
theorem C4_counterexample :
    ((generateMealPlan constNext 0
        [plainRecipe "a" none, plainRecipe "b" none, plainRecipe "c" none,
         plainRecipe "d" none, plainRecipe "e" none] [] 4 4 defaultConstraints
        (some [⟨7, some "a", some "x", true⟩]) none).map
      (fun p => p.1.entries.map (fun e => e.recipe_id))
      = .ok [some "a", some "b", some "c", some "a"]) ∧
    ((getEligibleRecipes
        [plainRecipe "a" none, plainRecipe "b" none, plainRecipe "c" none,
         plainRecipe "d" none, plainRecipe "e" none] defaultConstraints).map
      List.length = .ok 5) ∧
    ¬ (5 < 4) := by
  refine ⟨by rfl, by rfl, by decide⟩

/-- C4 (amended): within one generated plan, no recipe id is assigned to two
different freshly generated (non-locked) entries — and this holds regardless
of how the eligible count compares with dinners_per_week, because chosen
recipes are removed from the rotating pool as they are assigned and the
refill excludes every recipe already used in this plan, so the pool never
holds an already-used recipe; only locked entries kept verbatim from the
input can repeat an id. -/
theorem C4_no_repeat_generated (next : Nat → Nat × Nat) (g0 : Nat)
    (catalog : List Recipe) (history : List MealPlanRec) (ws : Int) (n : Nat)
    (cs : PlannerConstraints) (ex : Option (List MealPlanEntry))
    (seed : Option String) (eligible : List Recipe)
    (helig : getEligibleRecipes catalog cs = .ok eligible) :
    ∃ out gf, generateMealPlan next g0 catalog history ws n cs ex seed = .ok (out, gf) ∧
      (genIds out.entries).Nodup ∧
      (∀ (total : Nat) (ds : List Int) (lockedOf : Int → Option MealPlanEntry)
          (recently : List String) (st : LoopState),
        (∀ r ∈ st.pool, ¬ r.id ∈ st.used) →
        ∀ r ∈ (ds.foldl (planStep next eligible recently cs lockedOf total) st).pool,
          ¬ r.id ∈ (ds.foldl (planStep next eligible recently cs lockedOf total) st).used) := by
  have hpool : ∀ (total : Nat) (ds : List Int) (lockedOf : Int → Option MealPlanEntry)
      (recently : List String) (st : LoopState),
      (∀ r ∈ st.pool, ¬ r.id ∈ st.used) →
      ∀ r ∈ (ds.foldl (planStep next eligible recently cs lockedOf total) st).pool,
        ¬ r.id ∈ (ds.foldl (planStep next eligible recently cs lockedOf total) st).used := by
    intro total ds lockedOf recently st hst
    exact foldl_preserve (P := fun st => ∀ r ∈ st.pool, ¬ r.id ∈ st.used) ds st
      (fun d _ st hst => planStep_pool_used_disjoint d st hst) hst
  by_cases hne : eligible.isEmpty
  · have : eligible = [] := List.isEmpty_iff.mp hne
    subst this
    refine ⟨_, _, generateMealPlan_empty helig, ?_, hpool⟩
    simp [genIds]
  · have hne' : eligible.isEmpty = false := by simpa using hne
    refine ⟨_, _, generateMealPlan_ok helig hne', ?_, hpool⟩
    have hlkd : ∀ d e,
        planLockedOf ex (generateDinnerDates ws n cs.start_week_on) d = some e →
        e.locked = true := by
      intro d e hd
      exact (lockedLookup_spec hd).2.1
    have hfold := foldl_preserve
      (f := planStep next eligible (getRecentlyUsed history ws cs.avoid_repeat_weeks) cs
        (planLockedOf ex (generateDinnerDates ws n cs.start_week_on))
        (generateDinnerDates ws n cs.start_week_on).length)
      (P := fun st => (genIds st.entries).Nodup ∧ ∀ id ∈ genIds st.entries, id ∈ st.used)
      (generateDinnerDates ws n cs.start_week_on)
      ⟨[], [], eligible, seedState (planSeedString ws seed)⟩
      (fun d _ st hst => planStep_genIds hlkd d st hst)
      (by constructor <;> simp [genIds])
    unfold runPlanLoop
    exact hfold.1

/-- Witness for C4 (amended) at a concrete five-recipe run with a locked
existing entry. -/
theorem C4_witness :
    getEligibleRecipes
        [plainRecipe "a" none, plainRecipe "b" none, plainRecipe "c" none,
         plainRecipe "d" none, plainRecipe "e" none] defaultConstraints
      = .ok [plainRecipe "a" none, plainRecipe "b" none, plainRecipe "c" none,
             plainRecipe "d" none, plainRecipe "e" none] ∧
    (∃ out gf,
      generateMealPlan constNext 0
          [plainRecipe "a" none, plainRecipe "b" none, plainRecipe "c" none,
           plainRecipe "d" none, plainRecipe "e" none] [] 4 4 defaultConstraints
          (some [⟨7, some "a", some "x", true⟩]) none = .ok (out, gf) ∧
      (genIds out.entries).Nodup ∧
      (∀ (total : Nat) (ds : List Int) (lockedOf : Int → Option MealPlanEntry)
          (recently : List String) (st : LoopState),
        (∀ r ∈ st.pool, ¬ r.id ∈ st.used) →
        ∀ r ∈ (ds.foldl (planStep constNext
            [plainRecipe "a" none, plainRecipe "b" none, plainRecipe "c" none,
             plainRecipe "d" none, plainRecipe "e" none] recently defaultConstraints
            lockedOf total) st).pool,
          ¬ r.id ∈ (ds.foldl (planStep constNext
            [plainRecipe "a" none, plainRecipe "b" none, plainRecipe "c" none,
             plainRecipe "d" none, plainRecipe "e" none] recently defaultConstraints
            lockedOf total) st).used)) :=
  ⟨rfl, C4_no_repeat_generated constNext 0
    [plainRecipe "a" none, plainRecipe "b" none, plainRecipe "c" none,
     plainRecipe "d" none, plainRecipe "e" none] [] 4 4 defaultConstraints
    (some [⟨7, some "a", some "x", true⟩]) none
    [plainRecipe "a" none, plainRecipe "b" none, plainRecipe "c" none,
     plainRecipe "d" none, plainRecipe "e" none] rfl⟩

/-! ## Claim C5 -/

theorem lockedLookup_eq_of_nodup {existing : List MealPlanEntry} {dates : List Int}
    {e : MealPlanEntry} (he : e ∈ existing) (hl : e.locked = true)
    (hd : e.date ∈ dates) (hnd : (existing.map (fun x => x.date)).Nodup) :
    lockedLookup existing dates e.date = some e := by
  unfold lockedLookup
  have hfe : existing.filter
      (fun x => x.locked && dates.contains x.date && x.date == e.date) = [e] := by
    induction existing with
    | nil => exact absurd he (List.not_mem_nil e)
    | cons x rest ih =>
      rw [List.map_cons, List.nodup_cons] at hnd
      rcases List.mem_cons.mp he with rfl | he'
      · rw [List.filter_cons_of_pos (by simp [hl, hd])]
        have hrest : rest.filter
            (fun y => y.locked && dates.contains y.date && y.date == e.date) = [] := by
          rw [List.filter_eq_nil_iff]
          intro y hy hc
          simp only [Bool.and_eq_true, beq_iff_eq] at hc
          exact hnd.1 (by rw [← hc.2]; exact List.mem_map_of_mem _ hy)
        rw [hrest]
      · rw [List.filter_cons_of_neg (by
          intro hc
          simp only [Bool.and_eq_true, beq_iff_eq] at hc
          exact hnd.1 (by rw [hc.2]; exact List.mem_map_of_mem _ he'))]
        exact ih he' hnd.2
  rw [hfe]
  rfl

/-- C5 is false as stated: (a) when the eligible set is empty the planner
returns an empty entry list, dropping a locked existing entry whose date
lies among the (would-be) dinner dates; (b) when two locked existing
entries share one date, only the later one is returned (the dict built over
the existing entries keeps the last binding per date). -/
theorem C5_counterexample :
    ((generateMealPlan constNext 0 [] [] 4 4 defaultConstraints
        (some [⟨4, some "x", some "n", true⟩]) none).map (fun p => p.1.entries)
      = .ok []) ∧
    (MealPlanEntry.locked ⟨4, some "x", some "n", true⟩ = true) ∧
    ((4 : Int) ∈ generateDinnerDates 4 4 WeekStartDay.monday) ∧
    ((generateMealPlan constNext 0 [plainRecipe "d1" none] [] 4 4 defaultConstraints
        (some [⟨4, some "x", some "n1", true⟩, ⟨4, some "y", some "n2", true⟩])
        none).map
      (fun p => decide ((⟨4, some "x", some "n1", true⟩ : MealPlanEntry) ∈ p.1.entries))
      = .ok false) := by
  refine ⟨by rfl, rfl, by decide, by rfl⟩

/-- C5 (amended): when regenerating with existing entries whose dates are
pairwise distinct and the eligible set is non-empty, every locked existing
entry whose date is among the generated dinner dates appears unchanged in
the returned entry list (same date, recipe id, notes and locked flag, being
the very same entry value); and at its processing step, when its recipe id
is truthy, that id is appended to the used set and the recipe is removed
from the rotating pool. -/
theorem C5_locked_preserved (next : Nat → Nat × Nat) (g0 : Nat)
    (catalog : List Recipe) (history : List MealPlanRec) (ws : Int) (n : Nat)
    (cs : PlannerConstraints) (existing : List MealPlanEntry) (seed : Option String)
    (eligible : List Recipe) (e : MealPlanEntry)
    (helig : getEligibleRecipes catalog cs = .ok eligible)
    (hne : eligible ≠ [])
    (he : e ∈ existing) (hl : e.locked = true)
    (hd : e.date ∈ generateDinnerDates ws n cs.start_week_on)
    (hnd : (existing.map (fun x => x.date)).Nodup) :
    ∃ out gf, generateMealPlan next g0 catalog history ws n cs (some existing) seed
        = .ok (out, gf) ∧
      e ∈ out.entries ∧
      (optStrTruthy e.recipe_id = true →
        ∀ (recently : List String) (total : Nat) (st : LoopState),
          (planStep next eligible recently cs
              (planLockedOf (some existing) (generateDinnerDates ws n cs.start_week_on))
              total st e.date).used = st.used ++ [e.recipe_id.getD ""] ∧
          (planStep next eligible recently cs
              (planLockedOf (some existing) (generateDinnerDates ws n cs.start_week_on))
              total st e.date).pool
            = st.pool.filter (fun r => !(r.id == e.recipe_id.getD ""))) := by
  have hne' : eligible.isEmpty = false := by
    cases eligible with
    | nil => exact absurd rfl hne
    | cons a l => rfl
  have hlook : planLockedOf (some existing)
      (generateDinnerDates ws n cs.start_week_on) e.date = some e := by
    unfold planLockedOf
    exact lockedLookup_eq_of_nodup he hl hd hnd
  refine ⟨_, _, generateMealPlan_ok helig hne', ?_, ?_⟩
  · unfold runPlanLoop
    exact foldPlan_locked_mem _ _ e.date e hd hlook
  · intro htr recently total st
    rw [planStep_locked_eq hlook, if_pos htr]
    exact ⟨rfl, rfl⟩

/-- Witness for C5 (amended) at a concrete run with one locked entry. -/
theorem C5_witness :
    getEligibleRecipes [plainRecipe "d1" none] defaultConstraints
      = .ok [plainRecipe "d1" none] ∧
    [plainRecipe "d1" none] ≠ ([] : List Recipe) ∧
    ((⟨7, some "z", some "note", true⟩ : MealPlanEntry)
      ∈ [(⟨7, some "z", some "note", true⟩ : MealPlanEntry)]) ∧
    (MealPlanEntry.locked ⟨7, some "z", some "note", true⟩ = true) ∧
    (MealPlanEntry.date ⟨7, some "z", some "note", true⟩
      ∈ generateDinnerDates 4 4 defaultConstraints.start_week_on) ∧
    (∃ out gf,
      generateMealPlan constNext 0 [plainRecipe "d1" none] [] 4 4 defaultConstraints
          (some [⟨7, some "z", some "note", true⟩]) none = .ok (out, gf) ∧
      (⟨7, some "z", some "note", true⟩ : MealPlanEntry) ∈ out.entries ∧
      (optStrTruthy (MealPlanEntry.recipe_id ⟨7, some "z", some "note", true⟩) = true →
        ∀ (recently : List String) (total : Nat) (st : LoopState),
          (planStep constNext [plainRecipe "d1" none] recently defaultConstraints
              (planLockedOf (some [⟨7, some "z", some "note", true⟩])
                (generateDinnerDates 4 4 defaultConstraints.start_week_on))
              total st
              (MealPlanEntry.date ⟨7, some "z", some "note", true⟩)).used
            = st.used ++ [(MealPlanEntry.recipe_id
                ⟨7, some "z", some "note", true⟩).getD ""] ∧
          (planStep constNext [plainRecipe "d1" none] recently defaultConstraints
              (planLockedOf (some [⟨7, some "z", some "note", true⟩])
                (generateDinnerDates 4 4 defaultConstraints.start_week_on))
              total st
              (MealPlanEntry.date ⟨7, some "z", some "note", true⟩)).pool
            = st.pool.filter (fun r => !(r.id == (MealPlanEntry.recipe_id
                ⟨7, some "z", some "note", true⟩).getD "")))) :=
  ⟨rfl, by decide, by decide, rfl, by decide,
    C5_locked_preserved constNext 0 [plainRecipe "d1" none] [] 4 4 defaultConstraints
      [⟨7, some "z", some "note", true⟩] none [plainRecipe "d1" none]
      ⟨7, some "z", some "note", true⟩ rfl (by decide) (by decide) rfl (by decide)
      (by decide)⟩

/-! ## Claim C6 -/

theorem lateChecks_true {cs : PlannerConstraints} {r : Recipe}
    (h : lateChecks cs r = true) :
    (optNatTruthy cs.max_cook_time_min = true → optNatTruthy r.cook_time_min = true →
      r.cook_time_min.getD 0 ≤ cs.max_cook_time_min.getD 0) ∧
    (cs.include_tags ≠ [] → ∃ t ∈ cs.include_tags, r.tags.contains t = true) := by
  unfold lateChecks at h
  split at h
  · exact absurd h (by simp)
  · rename_i h1
    split at h
    · exact absurd h (by simp)
    · rename_i h2
      constructor
      · intro hm hc
        rw [hm, hc] at h1
        simp only [Bool.true_and, Bool.and_eq_true, decide_eq_true_eq] at h1
        omega
      · intro hne
        have hie : cs.include_tags.isEmpty = false := by
          cases hcs : cs.include_tags with
          | nil => exact absurd hcs hne
          | cons a l => rfl
        rw [hie] at h2
        simp only [Bool.not_false, Bool.true_and, Bool.not_eq_true',
          Bool.not_eq_false] at h2
        obtain ⟨t, ht, htt⟩ := List.any_eq_true.mp h2
        exact ⟨t, ht, htt⟩

theorem recipeEligibleE_ok_true {cs : PlannerConstraints} {r : Recipe}
    (h : recipeEligibleE cs r = .ok true) :
    mealTypeOk r = true ∧
    (cs.required_recipes.contains r.id = true ∨
      ((∀ t ∈ cs.exclude_tags, r.tags.contains t = false) ∧
       (cs.exclude_ingredients ≠ [] →
         ∃ txt, pyJoinIngredients r.ingredients = .ok txt ∧
           ∀ ing ∈ cs.exclude_ingredients,
             strIn (pyLower ing) (pyLower txt) = false) ∧
       lateChecks cs r = true)) := by
  unfold recipeEligibleE at h
  split at h
  · exact absurd h (by simp)
  · rename_i hmeal
    refine ⟨by simpa using hmeal, ?_⟩
    split at h
    · rename_i hreq
      exact Or.inl (Bool.and_eq_true .. |>.mp hreq).2
    · split at h
      · exact absurd h (by simp)
      · rename_i hreq hexcl
        have htags : ∀ t ∈ cs.exclude_tags, r.tags.contains t = false := by
          intro t ht
          by_contra hcon
          apply hexcl
          have hie : cs.exclude_tags.isEmpty = false := by
            cases hcs : cs.exclude_tags with
            | nil => rw [hcs] at ht; exact absurd ht (List.not_mem_nil t)
            | cons a l => rfl
          rw [hie]
          simp only [Bool.not_false, Bool.true_and]
          exact List.any_eq_true.mpr ⟨t, ht, by simpa using hcon⟩
        refine Or.inr ⟨htags, ?_⟩
        split at h
        · rename_i hing
          rcases hj : pyJoinIngredients r.ingredients with e | txt
          · rw [hj] at h
            exact absurd h (by simp)
          · rw [hj] at h
            dsimp only at h
            by_cases hany :
              (cs.exclude_ingredients.any fun ing => strIn (pyLower ing) (pyLower txt))
                = true
            · rw [if_pos hany] at h
              exact absurd h (by simp)
            · rw [if_neg hany] at h
              simp only [Except.ok.injEq] at h
              refine ⟨?_, h⟩
              intro _
              refine ⟨txt, rfl, ?_⟩
              intro ing hin
              have hfalse := List.any_eq_false.mp (by simpa using hany)
              simpa using hfalse ing hin
        · rename_i hing
          have hempty : cs.exclude_ingredients = [] := by
            cases hcs : cs.exclude_ingredients with
            | nil => rfl
            | cons a l =>
              exfalso
              apply hing
              rw [hcs]
              rfl
          simp only [Except.ok.injEq] at h
          exact ⟨fun hne => absurd hempty hne, h⟩

theorem getEligibleRecipes_sound {catalog : List Recipe} {cs : PlannerConstraints}
    {l : List Recipe} (h : getEligibleRecipes catalog cs = .ok l) :
    ∀ r ∈ l, r ∈ catalog ∧ recipeEligibleE cs r = .ok true := by
  induction catalog generalizing l with
  | nil =>
    unfold getEligibleRecipes at h
    simp only [Except.ok.injEq] at h
    subst h
    intro r hr
    exact absurd hr (List.not_mem_nil r)
  | cons x rest ih =>
    unfold getEligibleRecipes at h
    rcases hx : recipeEligibleE cs x with e | b
    · rw [hx] at h
      exact absurd h (by simp)
    · rw [hx] at h
      rcases ht : getEligibleRecipes rest cs with e | tl
      · rw [ht] at h
        exact absurd h (by simp)
      · rw [ht] at h
        simp only [Except.ok.injEq] at h
        cases b with
        | true =>
          rw [if_pos rfl] at h
          subst h
          intro r hr
          rcases List.mem_cons.mp hr with rfl | hr'
          · exact ⟨List.mem_cons_self _ _, hx⟩
          · obtain ⟨hm, hel⟩ := ih ht r hr'
            exact ⟨List.mem_cons_of_mem _ hm, hel⟩
        | false =>
          rw [if_neg (by simp)] at h
          subst h
          intro r hr
          obtain ⟨hm, hel⟩ := ih ht r hr
          exact ⟨List.mem_cons_of_mem _ hm, hel⟩

theorem planStep_entries_elig {next : Nat → Nat × Nat} {eligible : List Recipe}
    {recently : List String} {cs : PlannerConstraints}
    {lockedOf : Int → Option MealPlanEntry} {total : Nat}
    (hlkd : ∀ d e, lockedOf d = some e → e.locked = true) (d : Int) (st : LoopState)
    (h : (∀ e ∈ st.entries, e.locked = false → ∀ rid, e.recipe_id = some rid →
            ∃ r, r ∈ eligible ∧ r.id = rid) ∧ (∀ r ∈ st.pool, r ∈ eligible)) :
    (∀ e ∈ (planStep next eligible recently cs lockedOf total st d).entries,
        e.locked = false → ∀ rid, e.recipe_id = some rid →
          ∃ r, r ∈ eligible ∧ r.id = rid) ∧
    (∀ r ∈ (planStep next eligible recently cs lockedOf total st d).pool,
        r ∈ eligible) := by
  obtain ⟨hent, hpool⟩ := h
  constructor
  · intro e' he' hlk rid hrid
    rcases hl : lockedOf d with _ | e
    · rw [planStep_unlocked_eq hl] at he'
      rcases hsel : selectRecipe next eligible st.used recently cs (some st.pool) st.g
        with ⟨o, g2⟩
      cases o with
      | none =>
        rw [stepUnlocked_eq_none hsel] at he'
        dsimp only at he'
        rcases List.mem_append.mp he' with h0 | h1
        · exact hent e' h0 hlk rid hrid
        · rw [List.mem_singleton] at h1
          subst h1
          simp at hrid
      | some r =>
        rw [stepUnlocked_eq_some hsel] at he'
        dsimp only at he'
        rcases List.mem_append.mp he' with h0 | h1
        · exact hent e' h0 hlk rid hrid
        · rw [List.mem_singleton] at h1
          subst h1
          simp only [Option.some.injEq] at hrid
          rcases (selectRecipe_mem hsel).1 with hp | he2
          · exact ⟨r, hpool r hp, hrid⟩
          · exact ⟨r, he2, hrid⟩
    · rw [planStep_locked_eq hl] at he'
      have hel : e.locked = true := hlkd d e hl
      have hmem : e' ∈ st.entries ++ [e] := by
        split at he' <;> exact he'
      rcases List.mem_append.mp hmem with h0 | h1
      · exact hent e' h0 hlk rid hrid
      · rw [List.mem_singleton] at h1
        subst h1
        rw [hel] at hlk
        exact absurd hlk (by simp)
  · intro r hr
    rcases planStep_pool_sub next eligible recently cs lockedOf total st d r hr
      with hp | he
    · exact hpool r hp
    · exact he

/-- C6 is false as stated: (a) a kept locked entry can carry a recipe whose
meal type is snack (excluded from eligibility) into the returned plan; (b) a
recipe whose cook_time_min (50) exceeds a set max_cook_time_min of 0 is
nevertheless selected, because Python truthiness disables the check when the
bound is 0 — even though both fields are set. -/
theorem C6_counterexample :
    ((generateMealPlan constNext 0
        [⟨"s", "s", [], [], none, .snack, none⟩, plainRecipe "d1" none] [] 4 4
        defaultConstraints (some [⟨7, some "s", some "", true⟩]) none).map
      (fun p => p.1.entries.map (fun e => e.recipe_id))
      = .ok [some "d1", none, none, some "s"]) ∧
    (Recipe.meal_type ⟨"s", "s", [], [], none, .snack, none⟩ = .snack) ∧
    (MealType.snack ≠ .breakfast ∧ MealType.snack ≠ .lunch ∧
      MealType.snack ≠ .dinner) ∧
    ((generateMealPlan constNext 0 [⟨"c1", "c1", [], [], none, .dinner, some 50⟩]
        [] 4 4 ⟨[], [], [], 4, true, some 0, [], .monday⟩ none none).map
      (fun p => p.1.entries.map (fun e => e.recipe_id))
      = .ok [some "c1", none, none, none]) ∧
    (Recipe.cook_time_min ⟨"c1", "c1", [], [], none, .dinner, some 50⟩ = some 50) ∧
    (PlannerConstraints.max_cook_time_min ⟨[], [], [], 4, true, some 0, [], .monday⟩
      = some 0) ∧
    ¬ ((50 : Nat) ≤ 0) := by
  refine ⟨by rfl, rfl, by decide, by rfl, rfl, rfl, by decide⟩

/-- C6 (amended): every freshly generated (non-locked) entry with a non-null
recipe id references an eligible catalog recipe: its meal type is breakfast,
lunch or dinner, and — unless its id is listed in required_recipes — its
tags contain none of exclude_tags, no exclude_ingredient occurs
case-insensitively in its joined ingredient text (which then joins without a
TypeError), its cook_time_min is at most max_cook_time_min whenever both are
set and non-zero (a zero bound or zero cook time disables the check by
Python truthiness), and it carries at least one include_tag when
include_tags is non-empty.  Entries kept verbatim from locked input are
exempt. -/
theorem C6_exclusion_correctness (next : Nat → Nat × Nat) (g0 : Nat)
    (catalog : List Recipe) (history : List MealPlanRec) (ws : Int) (n : Nat)
    (cs : PlannerConstraints) (ex : Option (List MealPlanEntry))
    (seed : Option String) (eligible : List Recipe)
    (helig : getEligibleRecipes catalog cs = .ok eligible) :
    ∃ out gf, generateMealPlan next g0 catalog history ws n cs ex seed = .ok (out, gf) ∧
      ∀ e ∈ out.entries, e.locked = false → ∀ rid, e.recipe_id = some rid →
        ∃ r, r ∈ catalog ∧ r.id = rid ∧ mealTypeOk r = true ∧
          (cs.required_recipes.contains r.id = true ∨
            ((∀ t ∈ cs.exclude_tags, r.tags.contains t = false) ∧
             (cs.exclude_ingredients ≠ [] →
               ∃ txt, pyJoinIngredients r.ingredients = .ok txt ∧
                 ∀ ing ∈ cs.exclude_ingredients,
                   strIn (pyLower ing) (pyLower txt) = false) ∧
             (optNatTruthy cs.max_cook_time_min = true →
               optNatTruthy r.cook_time_min = true →
               r.cook_time_min.getD 0 ≤ cs.max_cook_time_min.getD 0) ∧
             (cs.include_tags ≠ [] → ∃ t ∈ cs.include_tags,
               r.tags.contains t = true))) := by
  have hassemble : ∀ r, r ∈ eligible →
      r ∈ catalog ∧ mealTypeOk r = true ∧
      (cs.required_recipes.contains r.id = true ∨
        ((∀ t ∈ cs.exclude_tags, r.tags.contains t = false) ∧
         (cs.exclude_ingredients ≠ [] →
           ∃ txt, pyJoinIngredients r.ingredients = .ok txt ∧
             ∀ ing ∈ cs.exclude_ingredients,
               strIn (pyLower ing) (pyLower txt) = false) ∧
         (optNatTruthy cs.max_cook_time_min = true →
           optNatTruthy r.cook_time_min = true →
           r.cook_time_min.getD 0 ≤ cs.max_cook_time_min.getD 0) ∧
         (cs.include_tags ≠ [] → ∃ t ∈ cs.include_tags,
           r.tags.contains t = true))) := by
    intro r hr
    obtain ⟨hcat, hok⟩ := getEligibleRecipes_sound helig r hr
    obtain ⟨hmeal, hrest⟩ := recipeEligibleE_ok_true hok
    refine ⟨hcat, hmeal, ?_⟩
    rcases hrest with hreq | ⟨htags, hings, hlate⟩
    · exact Or.inl hreq
    · obtain ⟨hcook, hinc⟩ := lateChecks_true hlate
      exact Or.inr ⟨htags, hings, hcook, hinc⟩
  by_cases hne : eligible.isEmpty
  · have : eligible = [] := List.isEmpty_iff.mp hne
    subst this
    refine ⟨_, _, generateMealPlan_empty helig, ?_⟩
    intro e he
    exact absurd he (List.not_mem_nil e)
  · have hne' : eligible.isEmpty = false := by simpa using hne
    refine ⟨_, _, generateMealPlan_ok helig hne', ?_⟩
    have hlkd : ∀ d e,
        planLockedOf ex (generateDinnerDates ws n cs.start_week_on) d = some e →
        e.locked = true := by
      intro d e hd
      exact (lockedLookup_spec hd).2.1
    have hfold := foldl_preserve
      (f := planStep next eligible (getRecentlyUsed history ws cs.avoid_repeat_weeks) cs
        (planLockedOf ex (generateDinnerDates ws n cs.start_week_on))
        (generateDinnerDates ws n cs.start_week_on).length)
      (P := fun st =>
        (∀ e ∈ st.entries, e.locked = false → ∀ rid, e.recipe_id = some rid →
          ∃ r, r ∈ eligible ∧ r.id = rid) ∧ (∀ r ∈ st.pool, r ∈ eligible))
      (generateDinnerDates ws n cs.start_week_on)
      ⟨[], [], eligible, seedState (planSeedString ws seed)⟩
      (fun d _ st hst => planStep_entries_elig hlkd d st hst)
      (by
        constructor
        · intro e he
          exact absurd he (List.not_mem_nil e)
        · intro r hr
          exact hr)
    intro e he hlk rid hrid
    have := hfold.1 e (by
      unfold runPlanLoop at he
      exact he) hlk rid hrid
    obtain ⟨r, hrelig, hrid2⟩ := this
    obtain ⟨hcat, hmeal, hrest⟩ := hassemble r hrelig
    subst hrid2
    exact ⟨r, hcat, rfl, hmeal, hrest⟩

/-- Witness for C6 (amended) at a concrete constrained run. -/
theorem C6_witness :
    getEligibleRecipes [plainRecipe "a" none] defaultConstraints
      = .ok [plainRecipe "a" none] ∧
    (∃ out gf,
      generateMealPlan constNext 0 [plainRecipe "a" none] [] 4 4 defaultConstraints
          none none = .ok (out, gf) ∧
      ∀ e ∈ out.entries, e.locked = false → ∀ rid, e.recipe_id = some rid →
        ∃ r, r ∈ [plainRecipe "a" none] ∧ r.id = rid ∧ mealTypeOk r = true ∧
          (defaultConstraints.required_recipes.contains r.id = true ∨
            ((∀ t ∈ defaultConstraints.exclude_tags, r.tags.contains t = false) ∧
             (defaultConstraints.exclude_ingredients ≠ [] →
               ∃ txt, pyJoinIngredients r.ingredients = .ok txt ∧
                 ∀ ing ∈ defaultConstraints.exclude_ingredients,
                   strIn (pyLower ing) (pyLower txt) = false) ∧
             (optNatTruthy defaultConstraints.max_cook_time_min = true →
               optNatTruthy r.cook_time_min = true →
               r.cook_time_min.getD 0 ≤ defaultConstraints.max_cook_time_min.getD 0) ∧
             (defaultConstraints.include_tags ≠ [] →
               ∃ t ∈ defaultConstraints.include_tags, r.tags.contains t = true)))) :=
  ⟨rfl, C6_exclusion_correctness constNext 0 [plainRecipe "a" none] [] 4 4
    defaultConstraints none none [plainRecipe "a" none] rfl⟩

/-! ## Claim C9 -/

theorem pyJoinTexts_error_of_obj {l : List IngredientEntry} {i : Ingredient}
    (hi : IngredientEntry.obj i ∈ l) : pyJoinTexts l = .error () := by
  induction l with
  | nil => exact absurd hi (List.not_mem_nil _)
  | cons x rest ih =>
    cases x with
    | obj j => rfl
    | str s =>
      rcases List.mem_cons.mp hi with heq | hi'
      · exact absurd heq (by simp)
      · show (pyJoinTexts rest).map _ = .error ()
        rw [ih hi']
        rfl

theorem pyJoinIngredients_error_of_obj {l : List IngredientEntry} {i : Ingredient}
    (hi : IngredientEntry.obj i ∈ l) : pyJoinIngredients l = .error () := by
  unfold pyJoinIngredients
  rw [pyJoinTexts_error_of_obj hi]
  rfl

theorem recipeEligibleE_error {cs : PlannerConstraints} {r : Recipe} {i : Ingredient}
    (hobj : IngredientEntry.obj i ∈ r.ingredients)
    (hmeal : mealTypeOk r = true)
    (hreq : (!cs.required_recipes.isEmpty && cs.required_recipes.contains r.id) = false)
    (hexcl : (!cs.exclude_tags.isEmpty
      && cs.exclude_tags.any (fun t => r.tags.contains t)) = false)
    (hing : cs.exclude_ingredients ≠ []) :
    recipeEligibleE cs r = .error () := by
  unfold recipeEligibleE
  rw [if_neg (by rw [hmeal]; exact (by decide)),
    if_neg (by rw [hreq]; exact Bool.false_ne_true),
    if_neg (by rw [hexcl]; exact Bool.false_ne_true),
    if_pos (by
      cases hcs : cs.exclude_ingredients with
      | nil => exact absurd hcs hing
      | cons a l => rfl),
    pyJoinIngredients_error_of_obj hobj]

theorem getEligibleRecipes_error_of_mem {catalog : List Recipe}
    {cs : PlannerConstraints} {r : Recipe}
    (hr : r ∈ catalog) (herr : recipeEligibleE cs r = .error ()) :
    getEligibleRecipes catalog cs = .error () := by
  induction catalog with
  | nil => exact absurd hr (List.not_mem_nil r)
  | cons x rest ih =>
    unfold getEligibleRecipes
    rcases hx : recipeEligibleE cs x with e | b
    · cases e
      rfl
    · rcases List.mem_cons.mp hr with rfl | hr'
      · rw [hx] at herr
        exact absurd herr (by simp)
      · rw [ih hr']

/-- C9 is false as stated: a catalog containing a recipe with a structured
Ingredient object, together with a non-empty exclude_ingredients list, does
not always raise — a snack recipe is skipped by the meal-type check before
the join runs, and eligibility returns an ordinary empty result. -/
theorem C9_counterexample :
    (getEligibleRecipes [⟨"s", "s", [.obj ⟨"milk", true⟩], [], none, .snack, none⟩]
        ⟨["x"], [], [], 4, true, none, [], .monday⟩ = .ok []) ∧
    ((⟨"s", "s", [.obj ⟨"milk", true⟩], [], none, .snack, none⟩ : Recipe).ingredients
      = [.obj ⟨"milk", true⟩]) ∧
    (["x"] ≠ ([] : List String)) ∧
    ((generateMealPlan constNext 0
        [⟨"s", "s", [.obj ⟨"milk", true⟩], [], none, .snack, none⟩] [] 4 4
        ⟨["x"], [], [], 4, true, none, [], .monday⟩ none none).map
      (fun p => p.1.entries.length) = .ok 0) := by
  refine ⟨by rfl, rfl, by decide, by rfl⟩

/-- C9 (amended): whenever a recipe whose ingredients contain a structured
Ingredient object reaches the exclude-ingredients check — i.e. its meal
type is breakfast, lunch or dinner, it is not matched by required_recipes,
no exclude_tag matches it — and exclude_ingredients is non-empty, the
string join raises a TypeError, the whole eligibility computation fails,
and the failure is reachable from the public generate_meal_plan interface,
which then also raises instead of filtering. -/
theorem C9_structured_ingredient_type_error (catalog : List Recipe)
    (cs : PlannerConstraints) (r : Recipe) (i : Ingredient)
    (hr : r ∈ catalog) (hobj : IngredientEntry.obj i ∈ r.ingredients)
    (hmeal : mealTypeOk r = true)
    (hreq : (!cs.required_recipes.isEmpty && cs.required_recipes.contains r.id) = false)
    (hexcl : (!cs.exclude_tags.isEmpty
      && cs.exclude_tags.any (fun t => r.tags.contains t)) = false)
    (hing : cs.exclude_ingredients ≠ []) :
    getEligibleRecipes catalog cs = .error () ∧
    ∀ (next : Nat → Nat × Nat) (g0 : Nat) (history : List MealPlanRec) (ws : Int)
      (n : Nat) (ex : Option (List MealPlanEntry)) (seed : Option String),
      generateMealPlan next g0 catalog history ws n cs ex seed = .error () := by
  have hcat := getEligibleRecipes_error_of_mem hr
    (recipeEligibleE_error hobj hmeal hreq hexcl hing)
  exact ⟨hcat, fun next g0 history ws n ex seed => generateMealPlan_error hcat⟩

/-- Witness for C9 (amended) at a concrete dinner recipe with a structured
ingredient. -/
theorem C9_witness :
    ((⟨"d", "d", [.obj ⟨"milk", true⟩], [], none, .dinner, none⟩ : Recipe)
      ∈ [(⟨"d", "d", [.obj ⟨"milk", true⟩], [], none, .dinner, none⟩ : Recipe)]) ∧
    (IngredientEntry.obj ⟨"milk", true⟩
      ∈ (⟨"d", "d", [.obj ⟨"milk", true⟩], [], none, .dinner, none⟩ : Recipe).ingredients) ∧
    (getEligibleRecipes [⟨"d", "d", [.obj ⟨"milk", true⟩], [], none, .dinner, none⟩]
        ⟨["x"], [], [], 4, true, none, [], .monday⟩ = .error ()) ∧
    (generateMealPlan constNext 0
        [⟨"d", "d", [.obj ⟨"milk", true⟩], [], none, .dinner, none⟩] [] 4 4
        ⟨["x"], [], [], 4, true, none, [], .monday⟩ none none = .error ()) :=
  ⟨by decide, by decide,
    (C9_structured_ingredient_type_error
      [⟨"d", "d", [.obj ⟨"milk", true⟩], [], none, .dinner, none⟩]
      ⟨["x"], [], [], 4, true, none, [], .monday⟩
      ⟨"d", "d", [.obj ⟨"milk", true⟩], [], none, .dinner, none⟩ ⟨"milk", true⟩
      (by decide) (by decide) rfl rfl rfl (by decide)).1,
    (C9_structured_ingredient_type_error
      [⟨"d", "d", [.obj ⟨"milk", true⟩], [], none, .dinner, none⟩]
      ⟨["x"], [], [], 4, true, none, [], .monday⟩
      ⟨"d", "d", [.obj ⟨"milk", true⟩], [], none, .dinner, none⟩ ⟨"milk", true⟩
      (by decide) (by decide) rfl rfl rfl (by decide)).2
      constNext 0 [] 4 4 none none⟩

/-! ## Claim C10 -/

/-- C10: the consolidated-ingredient export (with or without staples) is
computed by the heuristic grouping alone: the handler output is identical
for every AI consolidation function and availability flag, while the
reported ai_consolidation_used flag merely mirrors availability, not use. -/
theorem C10_ai_never_invoked
    (f1 f2 : List String → Option (List (String × String))) (a1 a2 : Bool)
    (catalog : List Recipe) (entries : List MealPlanEntry) (staples : List String) :
    (apiExportConsolidatedIngredients f1 a1 catalog entries).ingredients
        = exportConsolidatedIngredients catalog entries ∧
    (apiExportConsolidatedIngredients f1 a1 catalog entries).ingredients
        = (apiExportConsolidatedIngredients f2 a2 catalog entries).ingredients ∧
    (apiExportConsolidatedIngredientsWithStaples f1 a1 catalog entries staples).ingredients
        = exportConsolidatedIngredientsWithStaples catalog entries staples ∧
    (apiExportConsolidatedIngredientsWithStaples f1 a1 catalog entries staples).ingredients
        = (apiExportConsolidatedIngredientsWithStaples f2 a2 catalog entries staples).ingredients ∧
    (apiExportConsolidatedIngredients f1 a1 catalog entries).ai_consolidation_used = a1 ∧
    (apiExportConsolidatedIngredientsWithStaples f1 a1 catalog entries staples).ai_consolidation_used
        = a1 :=
  ⟨rfl, rfl, rfl, rfl, rfl, rfl⟩

/-! ## Claim C7 -/

/-- The distinct grouping keys of a mention list, in first-seen order. -/
def firstDedup : List String → List String
  | [] => []
  | x :: xs => x :: firstDedup (xs.filter (fun y => !(y == x)))
termination_by l => l.length
decreasing_by
  simp only [List.length_cons]
  exact Nat.lt_succ_of_le (List.length_filter_le _ _)

/-- The first mention carrying a given grouping key: the claim's first-seen
original surface text for that key. -/
def declFirstName (ms : List String) (k : String) : String :=
  match ms.find? (fun m => mentionKey m == k) with
  | some m => m
  | none => ""

theorem bumpCount_keys (k : String) (cs : List (String × Nat)) :
    (bumpCount k cs).map Prod.fst =
      if (cs.map Prod.fst).contains k then cs.map Prod.fst
      else cs.map Prod.fst ++ [k] := by
  induction cs with
  | nil => simp [bumpCount]
  | cons p rest ih =>
    obtain ⟨k', n⟩ := p
    by_cases hk : k' = k
    · subst hk
      unfold bumpCount
      rw [if_pos (by simp)]
      simp
    · unfold bumpCount
      rw [if_neg (by simpa using hk)]
      simp only [List.map_cons]
      rw [ih]
      by_cases hmem : (rest.map Prod.fst).contains k
      · rw [if_pos hmem, if_pos (by simp at hmem ⊢; exact Or.inr hmem)]
      · rw [if_neg hmem, if_neg (by
          simp at hmem ⊢
          exact ⟨fun hkk => hk hkk.symm, hmem⟩)]
        rfl

theorem firstDedup_nil : firstDedup [] = [] := by
  rw [firstDedup.eq_def]

theorem firstDedup_cons (x : String) (xs : List String) :
    firstDedup (x :: xs) = x :: firstDedup (xs.filter (fun y => !(y == x))) := by
  rw [firstDedup.eq_def]

theorem lookupCount_nil (k : String) : lookupCount [] k = 0 := rfl

theorem lookupCount_cons_self (k : String) (n : Nat) (cs : List (String × Nat)) :
    lookupCount ((k, n) :: cs) k = n := by
  unfold lookupCount
  rw [List.find?_cons_of_pos _ (by simp)]

theorem lookupCount_cons_other {k k0 : String} (hne : k0 ≠ k) (n : Nat)
    (cs : List (String × Nat)) :
    lookupCount ((k0, n) :: cs) k = lookupCount cs k := by
  unfold lookupCount
  rw [List.find?_cons_of_neg _ (by simpa using hne)]

theorem lookupCount_bump_self (k : String) (cs : List (String × Nat)) :
    lookupCount (bumpCount k cs) k = lookupCount cs k + 1 := by
  induction cs with
  | nil =>
    unfold bumpCount
    rw [lookupCount_cons_self, lookupCount_nil]
  | cons p rest ih =>
    obtain ⟨k', n⟩ := p
    by_cases hk : k' = k
    · subst hk
      unfold bumpCount
      rw [if_pos (by simp), lookupCount_cons_self, lookupCount_cons_self]
    · unfold bumpCount
      rw [if_neg (by simpa using hk), lookupCount_cons_other hk,
        lookupCount_cons_other hk]
      exact ih

theorem lookupCount_bump_other {k k' : String} (hne : k' ≠ k)
    (cs : List (String × Nat)) :
    lookupCount (bumpCount k' cs) k = lookupCount cs k := by
  induction cs with
  | nil =>
    unfold bumpCount
    rw [lookupCount_cons_other hne, lookupCount_nil]
  | cons p rest ih =>
    obtain ⟨k0, n⟩ := p
    by_cases hk : k0 = k'
    · subst hk
      unfold bumpCount
      rw [if_pos (by simp), lookupCount_cons_other hne, lookupCount_cons_other hne]
    · unfold bumpCount
      rw [if_neg (by simpa using hk)]
      by_cases hk0 : k0 = k
      · subst hk0
        rw [lookupCount_cons_self, lookupCount_cons_self]
      · rw [lookupCount_cons_other hk0, lookupCount_cons_other hk0]
        exact ih

theorem tallyGo_counts (ms : List String) (cs : List (String × Nat))
    (ns : List (String × String)) (k : String) :
    lookupCount (tallyGo ms cs ns).1 k
      = lookupCount cs k + ms.countP (fun m => mentionKey m == k) := by
  induction ms generalizing cs ns with
  | nil => simp [tallyGo]
  | cons m rest ih =>
    unfold tallyGo
    rw [ih]
    by_cases hk : mentionKey m = k
    · rw [List.countP_cons_of_pos _ _ (by simpa using hk)]
      subst hk
      rw [lookupCount_bump_self]
      omega
    · rw [List.countP_cons_of_neg _ _ (by simpa using hk)]
      rw [lookupCount_bump_other hk]

theorem tallyGo_keys (ms : List String) (cs : List (String × Nat))
    (ns : List (String × String)) :
    (tallyGo ms cs ns).1.map Prod.fst
      = cs.map Prod.fst
        ++ firstDedup ((ms.map mentionKey).filter
            (fun k => !((cs.map Prod.fst).contains k))) := by
  induction ms generalizing cs ns with
  | nil =>
    unfold tallyGo
    rw [List.map_nil, List.filter_nil, firstDedup_nil, List.append_nil]
  | cons m rest ih =>
    unfold tallyGo
    rw [ih]
    rw [bumpCount_keys]
    by_cases hk : (cs.map Prod.fst).contains (mentionKey m)
    · rw [if_pos hk]
      congr 1
      rw [List.map_cons, List.filter_cons_of_neg (by simpa using hk)]
    · rw [if_neg hk]
      rw [List.map_cons, List.filter_cons_of_pos (by simpa using hk)]
      rw [firstDedup_cons]
      rw [List.append_assoc, List.singleton_append]
      have hfeq : (rest.map mentionKey).filter
            (fun k => !(((cs.map Prod.fst) ++ [mentionKey m]).contains k))
          = ((rest.map mentionKey).filter
              (fun k => !((cs.map Prod.fst).contains k))).filter
              (fun y => !(y == mentionKey m)) := by
        rw [List.filter_filter]
        apply List.filter_congr
        intro y _
        cases hy : (cs.map Prod.fst).contains y <;>
          cases hk2 : y == mentionKey m <;>
            simp_all
      rw [hfeq]

theorem firstDedup_subset (l : List String) : firstDedup l ⊆ l := by
  induction l using firstDedup.induct with
  | case1 => rw [firstDedup_nil]; exact fun a h => h
  | case2 x xs ih =>
    rw [firstDedup_cons]
    intro y hy
    rcases List.mem_cons.mp hy with h | h
    · exact h ▸ List.mem_cons_self _ _
    · exact List.mem_cons_of_mem _ (List.mem_of_mem_filter (ih h))

theorem firstDedup_nodup (l : List String) : (firstDedup l).Nodup := by
  induction l using firstDedup.induct with
  | case1 => rw [firstDedup_nil]; exact List.nodup_nil
  | case2 x xs ih =>
    rw [firstDedup_cons]
    refine List.Nodup.cons ?_ ih
    intro hx
    have hmem := firstDedup_subset _ hx
    have := (List.mem_filter.mp hmem).2
    simp at this

theorem declFirstName_nil (k : String) : declFirstName [] k = "" := rfl

theorem declFirstName_cons (m : String) (rest : List String) (k : String) :
    declFirstName (m :: rest) k
      = if mentionKey m == k then m else declFirstName rest k := by
  unfold declFirstName
  by_cases h : mentionKey m == k
  · rw [List.find?_cons_of_pos (p := fun x => mentionKey x == k) _ h, if_pos h]
  · rw [List.find?_cons_of_neg (p := fun x => mentionKey x == k) _ h, if_neg h]

theorem lookupName_absent {ns : List (String × String)} {k : String}
    (h : ((ns.map Prod.fst).contains k) = false) : lookupName ns k = "" := by
  unfold lookupName
  have hfind : ns.find? (fun p => p.1 == k) = none := by
    apply List.find?_eq_none.mpr
    intro p hp
    simp only [List.contains_eq_any_beq] at h
    intro hbeq
    have : p.1 ∈ ns.map Prod.fst := List.mem_map_of_mem _ hp
    rw [List.any_eq_false] at h
    exact absurd hbeq (by simpa [BEq.comm] using h p.1 this)
  rw [hfind]

theorem addName_keys (k0 orig : String) (ns : List (String × String)) :
    (addName k0 orig ns).map Prod.fst
      = if (ns.map Prod.fst).contains k0 then ns.map Prod.fst
        else ns.map Prod.fst ++ [k0] := by
  unfold addName
  split
  · rfl
  · simp

theorem lookupName_append_single (ns : List (String × String)) (k0 orig k : String) :
    lookupName (ns ++ [(k0, orig)]) k
      = if (ns.map Prod.fst).contains k then lookupName ns k
        else if k0 == k then orig else "" := by
  induction ns with
  | nil =>
    simp only [List.nil_append, List.map_nil]
    rw [if_neg (by simp)]
    unfold lookupName
    by_cases h : k0 == k
    · rw [List.find?_cons_of_pos (p := fun q : String × String => q.1 == k) _
        (by simpa using h), if_pos h]
    · rw [List.find?_cons_of_neg (p := fun q : String × String => q.1 == k) _
        (by simpa using h), if_neg h]
      rfl
  | cons q rest ih =>
    obtain ⟨a, b⟩ := q
    by_cases hak : a = k
    · have h1 : lookupName (((a, b) :: rest) ++ [(k0, orig)]) k = b := by
        unfold lookupName
        rw [List.cons_append, List.find?_cons_of_pos _ (by simp [hak])]
      have h2 : lookupName ((a, b) :: rest) k = b := by
        unfold lookupName
        rw [List.find?_cons_of_pos _ (by simp [hak])]
      rw [h1, if_pos (by simp [hak]), h2]
    · have h1 : lookupName (((a, b) :: rest) ++ [(k0, orig)]) k
          = lookupName (rest ++ [(k0, orig)]) k := by
        unfold lookupName
        rw [List.cons_append, List.find?_cons_of_neg _ (by simpa using hak)]
      have h2 : lookupName ((a, b) :: rest) k = lookupName rest k := by
        unfold lookupName
        rw [List.find?_cons_of_neg _ (by simpa using hak)]
      rw [h1, ih, h2]
      by_cases hmem : (rest.map Prod.fst).contains k
      · rw [if_pos hmem, if_pos (by simp at hmem ⊢; exact Or.inr hmem)]
      · rw [if_neg hmem,
          if_neg (show ¬(((List.map Prod.fst ((a, b) :: rest)).contains k) = true) by
            simp at hmem ⊢
            exact ⟨fun hkk => hak hkk.symm, hmem⟩)]

theorem lookupName_addName (k0 orig k : String) (ns : List (String × String)) :
    lookupName (addName k0 orig ns) k
      = if (ns.map Prod.fst).contains k then lookupName ns k
        else if k0 == k then (if (ns.map Prod.fst).contains k0 then "" else orig)
        else "" := by
  unfold addName
  by_cases h0 : (ns.map Prod.fst).contains k0
  · rw [if_pos h0]
    by_cases hk : (ns.map Prod.fst).contains k
    · rw [if_pos hk]
    · rw [if_neg hk, lookupName_absent (by simpa using hk)]
      by_cases hke : k0 == k
      · rw [if_pos hke, if_pos h0]
      · rw [if_neg hke]
  · rw [if_neg h0, lookupName_append_single]
    by_cases hk : (ns.map Prod.fst).contains k
    · rw [if_pos hk, if_pos hk]
    · rw [if_neg hk, if_neg hk]
      by_cases hke : k0 == k
      · rw [if_pos hke, if_pos hke, if_neg h0]
      · rw [if_neg hke, if_neg hke]

theorem tallyGo_names (ms : List String) (cs : List (String × Nat))
    (ns : List (String × String)) (k : String) :
    lookupName (tallyGo ms cs ns).2 k
      = if (ns.map Prod.fst).contains k then lookupName ns k
        else declFirstName ms k := by
  induction ms generalizing cs ns with
  | nil =>
    unfold tallyGo
    by_cases h : (ns.map Prod.fst).contains k
    · rw [if_pos h]
    · rw [if_neg h, declFirstName_nil, lookupName_absent (by simpa using h)]
  | cons m rest ih =>
    unfold tallyGo
    rw [ih, declFirstName_cons, lookupName_addName, addName_keys]
    by_cases hin : (ns.map Prod.fst).contains k
    · have hin2 : ((if (ns.map Prod.fst).contains (mentionKey m)
          then ns.map Prod.fst else ns.map Prod.fst ++ [mentionKey m]).contains k)
          = true := by
        split
        · exact hin
        · simp at hin ⊢; exact Or.inl hin
      rw [hin2, if_pos rfl, if_pos hin, if_pos hin]
    · by_cases hm : mentionKey m == k
      · have hmk : mentionKey m = k := by simpa using hm
        have hk0 : ((ns.map Prod.fst).contains (mentionKey m)) = false := by
          rw [hmk]; simpa using hin
        have hin2 : ((if (ns.map Prod.fst).contains (mentionKey m)
            then ns.map Prod.fst else ns.map Prod.fst ++ [mentionKey m]).contains k)
            = true := by
          rw [if_neg (by rw [hk0]; exact Bool.false_ne_true)]
          exact List.elem_eq_true_of_mem
            (List.mem_append_right _ (by rw [hmk]; exact List.mem_singleton.mpr rfl))
        rw [hin2, if_pos rfl, if_neg hin, if_pos hm,
          if_neg (by rw [hk0]; exact Bool.false_ne_true), if_pos hm, if_neg hin]
      · have hin2 : ((if (ns.map Prod.fst).contains (mentionKey m)
            then ns.map Prod.fst else ns.map Prod.fst ++ [mentionKey m]).contains k)
            = false := by
          split
          · simpa using hin
          · simp at hin hm ⊢
            exact ⟨hin, fun e => hm e.symm⟩
        rw [hin2, if_neg (by simp), if_neg hin, if_neg hm]

theorem tallyGo_keys_init (ms : List String) :
    (tallyGo ms [] []).1.map Prod.fst = firstDedup (ms.map mentionKey) := by
  rw [tallyGo_keys]
  have h1 : (([] : List (String × Nat)).map Prod.fst) = ([] : List String) := rfl
  rw [h1, List.nil_append,
    (List.filter_eq_self (p := fun k => !(List.contains [] k))).mpr (fun a _ => rfl)]

theorem tallyGo_counts_init (ms : List String) (k : String) :
    lookupCount (tallyGo ms [] []).1 k
      = ms.countP (fun m => mentionKey m == k) := by
  rw [tallyGo_counts, lookupCount_nil, Nat.zero_add]

theorem tallyGo_names_init (ms : List String) (k : String) :
    lookupName (tallyGo ms [] []).2 k = declFirstName ms k := by
  rw [tallyGo_names, if_neg (by simp)]

theorem exportConsolidatedIngredients_eq (catalog : List Recipe)
    (entries : List MealPlanEntry) :
    exportConsolidatedIngredients catalog entries
      = String.intercalate "\n"
          ((pySorted ((tallyGo (planShoppingMentions catalog entries) [] []).1.map
              Prod.fst)).map
            (fun k =>
              renderLine (lookupName (tallyGo (planShoppingMentions catalog entries) [] []).2 k)
                (lookupCount (tallyGo (planShoppingMentions catalog entries) [] []).1 k))) :=
  rfl

/-- C7: the consolidated-ingredient export emits exactly one line per distinct
grouping key of the plan's shopping-list ingredient mentions (the emitted key
list is the first-seen deduplication of the mention keys, which has no
duplicates), sorted by key (the emitted order is a sorted permutation of those
distinct keys), each line showing the first-seen original mention text for its
key with the " (needed for N recipes)" suffix exactly when the key's mention
count N exceeds 1; in particular consolidating the mentions "2 cups flour" and
"1 cup flour" from two plan recipes yields the single line
"2 cups flour (needed for 2 recipes)". -/
theorem C7_consolidated_export_lines (catalog : List Recipe)
    (entries : List MealPlanEntry) :
    exportConsolidatedIngredients catalog entries
      = String.intercalate "\n"
          ((pySorted (firstDedup
              ((planShoppingMentions catalog entries).map mentionKey))).map
            (fun k =>
              renderLine (declFirstName (planShoppingMentions catalog entries) k)
                ((planShoppingMentions catalog entries).countP
                  (fun m => mentionKey m == k))))
    ∧ (firstDedup ((planShoppingMentions catalog entries).map mentionKey)).Nodup
    ∧ List.Sorted (fun a b : String => a ≤ b)
        (pySorted (firstDedup ((planShoppingMentions catalog entries).map mentionKey)))
    ∧ (pySorted (firstDedup
        ((planShoppingMentions catalog entries).map mentionKey))).Perm
        (firstDedup ((planShoppingMentions catalog entries).map mentionKey))
    ∧ exportConsolidatedIngredients
        [⟨"r1", "r1", [.str "2 cups flour"], [], none, .dinner, none⟩,
         ⟨"r2", "r2", [.str "1 cup flour"], [], none, .dinner, none⟩]
        [⟨0, some "r1", none, false⟩, ⟨1, some "r2", none, false⟩]
        = "2 cups flour (needed for 2 recipes)" := by
  refine ⟨?_, firstDedup_nodup _, List.sorted_insertionSort _ _,
    List.perm_insertionSort _ _, ?_⟩
  · rw [exportConsolidatedIngredients_eq, tallyGo_keys_init]
    apply congrArg (String.intercalate "\n")
    apply List.map_congr_left
    intro k _
    rw [tallyGo_names_init, tallyGo_counts_init]
  · rfl

/-! ## Claim C8 -/

/-- The ids of the eligible recipes, in catalog order. -/
def eligIds (eligible : List Recipe) : List String :=
  eligible.map (fun r => r.id)

/-- The protein type behind an optional recipe id, resolved against a
catalog by the first matching id. -/
def protOf (catalog : List Recipe) (o : Option String) : Option ProteinType :=
  match o with
  | some rid =>
    match catalog.find? (fun r => r.id == rid) with
    | some r => r.protein_type
    | none => none
  | none => none

/-- The protein type of a generated entry: its recipe id resolved in the
catalog. -/
def entryProteinIn (catalog : List Recipe) (e : MealPlanEntry) :
    Option ProteinType :=
  protOf catalog e.recipe_id

/-- Invariant of the all-unlocked selection loop: the rotating pool is the
eligible set minus the used ids, the used list is duplicate-free and stays
within the eligible ids, grows by one id per entry until the eligible set is
exhausted, and the entry recipe ids are the used ids in order followed by
nulls. -/
def loopInv (eligible : List Recipe) (st : LoopState) : Prop :=
  st.pool = eligible.filter (fun r => !(st.used.contains r.id))
  ∧ st.used.Nodup
  ∧ st.used ⊆ eligIds eligible
  ∧ st.used.length = min st.entries.length eligible.length
  ∧ st.entries.map (fun e => e.recipe_id)
      = st.used.map some
        ++ List.replicate (st.entries.length - st.used.length) none

theorem filter_used_snoc (eligible : List Recipe) (used : List String)
    (rid : String) :
    (eligible.filter (fun r => !(used.contains r.id))).filter
        (fun x => !(x.id == rid))
      = eligible.filter (fun r => !((used ++ [rid]).contains r.id)) := by
  rw [List.filter_filter]
  apply List.filter_congr
  intro r _
  cases hy : used.contains r.id <;> cases hk : r.id == rid <;> simp_all

theorem stepUnlocked_inv (next : Nat → Nat × Nat) (eligible : List Recipe)
    (recently : List String) (cs : PlannerConstraints) (total : Nat)
    (st : LoopState) (d : Int)
    (hnd : (eligIds eligible).Nodup) (h : loopInv eligible st) :
    loopInv eligible (stepUnlocked next eligible recently cs total st d) := by
  obtain ⟨hpool, hndu, hsub, hlen, hids⟩ := h
  have hsubperm : st.used.Subperm (eligIds eligible) :=
    List.subperm_of_subset hndu hsub
  have hle : st.used.length ≤ eligible.length := by
    simpa [eligIds] using hsubperm.length_le
  by_cases hne : eligible.filter (fun r => !(st.used.contains r.id)) = []
  · have hall : ∀ r ∈ eligible, st.used.contains r.id = true := by
      intro r hr
      have hx := List.filter_eq_nil_iff.mp hne r hr
      simp at hx
      simpa using hx
    have hp : ∀ r ∈ st.pool, r ∈ eligible := by
      intro r hr
      rw [hpool] at hr
      exact (List.mem_filter.mp hr).1
    have hsel : selectRecipe next eligible st.used recently cs (some st.pool) st.g
        = (none, st.g) := selectRecipe_none hall hp
    rw [stepUnlocked_eq_none hsel]
    have hsub2 : eligIds eligible ⊆ st.used := by
      intro id hid
      obtain ⟨r, hr, hrid⟩ := List.mem_map.mp hid
      have hc := hall r hr
      simp at hc
      exact hrid ▸ hc
    have hge : eligible.length ≤ st.used.length := by
      have hx := (List.subperm_of_subset hnd hsub2).length_le
      simpa [eligIds] using hx
    have hulen : st.used.length = eligible.length := Nat.le_antisymm hle hge
    have hEle : eligible.length ≤ st.entries.length := by
      have h2 := hlen
      rw [hulen] at h2
      have h3 := Nat.min_le_left st.entries.length eligible.length
      omega
    refine ⟨hpool, hndu, hsub, ?_, ?_⟩
    · dsimp only
      rw [List.length_append]
      simp only [List.length_singleton]
      rw [Nat.min_eq_right (by omega), hulen]
    · dsimp only
      rw [List.map_append, hids, List.append_assoc]
      have hux : st.used.length ≤ st.entries.length := by
        rw [hlen]; exact Nat.min_le_left _ _
      have hkk : (st.entries ++ [(⟨d, none, some "", false⟩ : MealPlanEntry)]).length
          - st.used.length = (st.entries.length - st.used.length) + 1 := by
        rw [List.length_append]
        simp only [List.length_singleton]
        omega
      rw [hkk, List.replicate_succ']
      rfl
  · obtain ⟨r, g2, hsel⟩ : ∃ r g2,
        selectRecipe next eligible st.used recently cs (some st.pool) st.g
          = (some r, g2) := selectRecipe_some hne
    rw [stepUnlocked_eq_some hsel]
    obtain ⟨hrmem, hrfresh⟩ := selectRecipe_mem hsel
    have hrelig : r ∈ eligible := by
      rcases hrmem with hmp | hme
      · rw [hpool] at hmp
        exact (List.mem_filter.mp hmp).1
      · exact hme
    have hfresh : r.id ∉ st.used := by simpa using hrfresh
    have hlt : st.used.length < eligible.length := by
      rcases Nat.lt_or_ge st.used.length eligible.length with hx | hx
      · exact hx
      · exfalso
        have hperm : st.used.Perm (eligIds eligible) :=
          hsubperm.perm_of_length_le (by simpa [eligIds] using hx)
        have hmemid : r.id ∈ eligIds eligible := List.mem_map_of_mem _ hrelig
        exact hfresh (hperm.mem_iff.mpr hmemid)
    have hEeq : st.used.length = st.entries.length := by
      rcases Nat.le_total st.entries.length eligible.length with hx | hx
      · rw [hlen, Nat.min_eq_left hx]
      · rw [hlen, Nat.min_eq_right hx] at hlt
        omega
    refine ⟨?_, ?_, ?_, ?_, ?_⟩
    · dsimp only
      split
      · rfl
      · rw [hpool, filter_used_snoc]
    · dsimp only
      rw [List.nodup_append]
      exact ⟨hndu, List.nodup_singleton _, fun x hx hx1 => by
        rw [List.mem_singleton] at hx1
        subst hx1
        exact hfresh hx⟩
    · dsimp only
      intro id hid
      rcases List.mem_append.mp hid with h0 | h1
      · exact hsub h0
      · rw [List.mem_singleton] at h1
        subst h1
        exact List.mem_map_of_mem _ hrelig
    · dsimp only
      rw [List.length_append, List.length_append]
      simp only [List.length_singleton]
      rw [Nat.min_eq_left (by omega)]
      omega
    · dsimp only
      rw [List.map_append, hids, List.map_append]
      have hk0 : st.entries.length - st.used.length = 0 := by omega
      have hk2 : (st.entries ++ [(⟨d, some r.id, some "", false⟩ : MealPlanEntry)]).length
          - (st.used ++ [r.id]).length = 0 := by
        rw [List.length_append, List.length_append]
        simp only [List.length_singleton]
        omega
      rw [hk0, hk2]
      simp

theorem foldPlan_inv {next : Nat → Nat × Nat} {eligible : List Recipe}
    {recently : List String} {cs : PlannerConstraints}
    {lockedOf : Int → Option MealPlanEntry} {total : Nat}
    (hnd : (eligIds eligible).Nodup) (hlock : ∀ d, lockedOf d = none)
    (ds : List Int) (st : LoopState) (h : loopInv eligible st) :
    loopInv eligible (ds.foldl (planStep next eligible recently cs lockedOf total) st) := by
  refine foldl_preserve (P := loopInv eligible) ds st ?_ h
  intro d _ st0 hst0
  rw [planStep_unlocked_eq (hlock d)]
  exact stepUnlocked_inv next eligible recently cs total st0 d hnd hst0

theorem loopInv_init (eligible : List Recipe) (g : Nat) :
    loopInv eligible ⟨[], [], eligible, g⟩ := by
  refine ⟨?_, List.nodup_nil, List.nil_subset _, ?_, ?_⟩
  · exact (List.filter_eq_self.mpr (fun a _ => rfl)).symm
  · simp
  · simp

theorem threeRecipeRun (next : Nat → Nat × Nat) (cs : PlannerConstraints)
    (r1 r2 r3 : Recipe)
    (hnd : ([r1.id, r2.id, r3.id] : List String).Nodup)
    (hp1 : r1.protein_type = some ProteinType.chicken)
    (hp2 : r2.protein_type = some ProteinType.beef)
    (hp3 : r3.protein_type = some ProteinType.vegetarian)
    (ds : List Int) (lockedOf : Int → Option MealPlanEntry)
    (recently : List String) (g1 : Nat)
    (hlock : ∀ d, lockedOf d = none) (hds4 : ds.length = 4) :
    (runPlanLoop next [r1, r2, r3] recently cs lockedOf ds g1).entries.length = 4
    ∧ ((runPlanLoop next [r1, r2, r3] recently cs lockedOf ds g1).entries.map
        (entryProteinIn [r1, r2, r3])).Perm
        [some ProteinType.chicken, some ProteinType.beef,
         some ProteinType.vegetarian, none]
    ∧ List.Chain' (fun a b => a ≠ b)
        ((runPlanLoop next [r1, r2, r3] recently cs lockedOf ds g1).entries.map
          (entryProteinIn [r1, r2, r3]))
    ∧ ((runPlanLoop next [r1, r2, r3] recently cs lockedOf ds g1).entries.map
        (fun e => e.recipe_id)).getLast? = some none
    ∧ (∀ p : ProteinType,
        2 ≤ ((runPlanLoop next [r1, r2, r3] recently cs lockedOf ds g1).entries.map
          (entryProteinIn [r1, r2, r3])).countP (fun o => o == some p) →
        ∀ q : ProteinType,
          some q ∈ (runPlanLoop next [r1, r2, r3] recently cs lockedOf ds g1).entries.map
            (entryProteinIn [r1, r2, r3])) := by
  unfold runPlanLoop
  generalize hF : ds.foldl (planStep next [r1, r2, r3] recently cs lockedOf ds.length)
      ⟨[], [], [r1, r2, r3], g1⟩ = F
  have hndids : (eligIds [r1, r2, r3]).Nodup := by
    simpa [eligIds] using hnd
  have hinv : loopInv [r1, r2, r3] F := by
    rw [← hF]
    exact foldPlan_inv hndids hlock ds ⟨[], [], [r1, r2, r3], g1⟩ (loopInv_init _ _)
  obtain ⟨hpool, hndu, hsub, hlen, hids⟩ := hinv
  have hdate : ∀ d e, lockedOf d = some e → e.date = d := by
    intro d e hd
    rw [hlock d] at hd
    cases hd
  have hmapdate : F.entries.map (fun e => e.date)
      = (⟨[], [], [r1, r2, r3], g1⟩ : LoopState).entries.map (fun e => e.date) ++ ds := by
    rw [← hF]
    exact foldPlan_map_date hdate ds ⟨[], [], [r1, r2, r3], g1⟩
  have hlen4 : F.entries.length = 4 := by
    have hc := congrArg List.length hmapdate
    simpa [hds4] using hc
  have hul3 : F.used.length = 3 := by
    rw [hlen4] at hlen
    simpa using hlen
  obtain ⟨u1, u2, u3, hu⟩ := List.length_eq_three.mp hul3
  have hidseq : eligIds [r1, r2, r3] = [r1.id, r2.id, r3.id] := rfl
  have hperm : F.used.Perm [r1.id, r2.id, r3.id] := by
    have hsp := List.subperm_of_subset hndu hsub
    rw [hidseq] at hsp
    refine hsp.perm_of_length_le ?_
    rw [hul3]
    simp
  have hids' : F.entries.map (fun e => e.recipe_id) = F.used.map some ++ [none] := by
    rw [hids, hlen4, hul3]
    norm_num
  have hmapP : F.entries.map (entryProteinIn [r1, r2, r3])
      = F.used.map (fun id => protOf [r1, r2, r3] (some id)) ++ [none] := by
    have h1 : F.entries.map (entryProteinIn [r1, r2, r3])
        = (F.entries.map (fun e => e.recipe_id)).map (protOf [r1, r2, r3]) := by
      rw [List.map_map]
      rfl
    rw [h1, hids', List.map_append, List.map_map]
    rfl
  have hm4 : F.entries.map (entryProteinIn [r1, r2, r3])
      = [protOf [r1, r2, r3] (some u1), protOf [r1, r2, r3] (some u2),
         protOf [r1, r2, r3] (some u3), none] := by
    rw [hmapP, hu]
    rfl
  have hsub' : ∀ x ∈ ([u1, u2, u3] : List String),
      x ∈ ([r1.id, r2.id, r3.id] : List String) := by
    intro x hx
    have hxF : x ∈ F.used := by rw [hu]; exact hx
    have hxe := hsub hxF
    rw [hidseq] at hxe
    exact hxe
  have hndu' : ([u1, u2, u3] : List String).Nodup := by rw [← hu]; exact hndu
  obtain ⟨hne12, hne13, hne23⟩ : u1 ≠ u2 ∧ u1 ≠ u3 ∧ u2 ≠ u3 := by
    simp [List.nodup_cons] at hndu'
    tauto
  obtain ⟨h12, h13, h23⟩ : r1.id ≠ r2.id ∧ r1.id ≠ r3.id ∧ r2.id ≠ r3.id := by
    have hnd2 := hnd
    simp [List.nodup_cons] at hnd2
    tauto
  have hf1 : protOf [r1, r2, r3] (some r1.id) = some ProteinType.chicken := by
    show (match List.find? (fun r => r.id == r1.id) [r1, r2, r3] with
      | some r => r.protein_type
      | none => none) = some ProteinType.chicken
    rw [List.find?_cons_of_pos _ (by simp)]
    exact hp1
  have hf2 : protOf [r1, r2, r3] (some r2.id) = some ProteinType.beef := by
    show (match List.find? (fun r => r.id == r2.id) [r1, r2, r3] with
      | some r => r.protein_type
      | none => none) = some ProteinType.beef
    rw [List.find?_cons_of_neg _ (by simpa using h12),
      List.find?_cons_of_pos _ (by simp)]
    exact hp2
  have hf3 : protOf [r1, r2, r3] (some r3.id) = some ProteinType.vegetarian := by
    show (match List.find? (fun r => r.id == r3.id) [r1, r2, r3] with
      | some r => r.protein_type
      | none => none) = some ProteinType.vegetarian
    rw [List.find?_cons_of_neg _ (by simpa using h13),
      List.find?_cons_of_neg _ (by simpa using h23),
      List.find?_cons_of_pos _ (by simp)]
    exact hp3
  have hpdist : ∀ a ∈ ([r1.id, r2.id, r3.id] : List String),
      ∀ b ∈ ([r1.id, r2.id, r3.id] : List String), a ≠ b →
      protOf [r1, r2, r3] (some a) ≠ protOf [r1, r2, r3] (some b) := by
    intro a ha b hb hab
    simp only [List.mem_cons, List.mem_singleton, List.not_mem_nil, or_false] at ha hb
    rcases ha with rfl | rfl | rfl <;> rcases hb with rfl | rfl | rfl <;>
      first
        | exact absurd rfl hab
        | (rw [hf1, hf2]; simp)
        | (rw [hf1, hf3]; simp)
        | (rw [hf2, hf1]; simp)
        | (rw [hf2, hf3]; simp)
        | (rw [hf3, hf1]; simp)
        | (rw [hf3, hf2]; simp)
  have hpsome : ∀ a ∈ ([r1.id, r2.id, r3.id] : List String),
      protOf [r1, r2, r3] (some a) ≠ none := by
    intro a ha
    simp only [List.mem_cons, List.mem_singleton, List.not_mem_nil, or_false] at ha
    rcases ha with rfl | rfl | rfl
    · rw [hf1]; simp
    · rw [hf2]; simp
    · rw [hf3]; simp
  have hpermP : (F.entries.map (entryProteinIn [r1, r2, r3])).Perm
      [some ProteinType.chicken, some ProteinType.beef,
       some ProteinType.vegetarian, none] := by
    rw [hmapP]
    have h2 : (F.used.map (fun id => protOf [r1, r2, r3] (some id))).Perm
        (([r1.id, r2.id, r3.id] : List String).map
          (fun id => protOf [r1, r2, r3] (some id))) :=
      hperm.map _
    have h3 : (([r1.id, r2.id, r3.id] : List String).map
        (fun id => protOf [r1, r2, r3] (some id)))
        = [some ProteinType.chicken, some ProteinType.beef,
           some ProteinType.vegetarian] := by
      simp only [List.map_cons, List.map_nil]
      rw [hf1, hf2, hf3]
    rw [h3] at h2
    simpa using h2.append_right [none]
  have hchain : List.Chain' (fun a b => a ≠ b)
      (F.entries.map (entryProteinIn [r1, r2, r3])) := by
    rw [hm4]
    simp only [List.chain'_cons, List.chain'_singleton, and_true]
    exact ⟨hpdist u1 (hsub' u1 (by simp)) u2 (hsub' u2 (by simp)) hne12,
      hpdist u2 (hsub' u2 (by simp)) u3 (hsub' u3 (by simp)) hne23,
      hpsome u3 (hsub' u3 (by simp))⟩
  have hlast : (F.entries.map (fun e => e.recipe_id)).getLast? = some none := by
    rw [hids']
    exact List.getLast?_concat _
  refine ⟨hlen4, hpermP, hchain, hlast, ?_⟩
  intro p hp2c q
  exfalso
  rw [hpermP.countP_eq] at hp2c
  revert hp2c
  cases p <;> decide

/-- C8: in the scenario of a catalog whose eligible set is exactly three
dinner recipes with the distinct protein types chicken, beef and vegetarian,
balance_protein_types on, dinners_per_week = 4 and no existing entries, the
generated run uses each of the three protein types exactly once (the entry
proteins are a permutation of chicken, beef, vegetarian and one null), so a
protein type is reused only after all three have been used — in fact it is
never reused at all, because after pool exhaustion the refill excludes every
used recipe and the fourth entry is left with a null recipe id — and no two
same-protein recipes are ever placed back-to-back (adjacent entry proteins
always differ), which subsumes the claim's pool-availability proviso. -/
theorem C8_protein_rotation_scenario (next : Nat → Nat × Nat) (g0 : Nat)
    (catalog : List Recipe) (history : List MealPlanRec) (ws : Int)
    (cs : PlannerConstraints) (seed : Option String) (r1 r2 r3 : Recipe)
    (helig : getEligibleRecipes catalog cs = .ok [r1, r2, r3])
    (hbal : cs.balance_protein_types = true)
    (hnd : ([r1.id, r2.id, r3.id] : List String).Nodup)
    (hm1 : r1.meal_type = MealType.dinner) (hm2 : r2.meal_type = MealType.dinner)
    (hm3 : r3.meal_type = MealType.dinner)
    (hp1 : r1.protein_type = some ProteinType.chicken)
    (hp2 : r2.protein_type = some ProteinType.beef)
    (hp3 : r3.protein_type = some ProteinType.vegetarian) :
    ∃ out gf, generateMealPlan next g0 catalog history ws 4 cs none seed
        = .ok (out, gf) ∧
      out.entries.length = 4 ∧
      (out.entries.map (entryProteinIn [r1, r2, r3])).Perm
        [some ProteinType.chicken, some ProteinType.beef,
         some ProteinType.vegetarian, none] ∧
      List.Chain' (fun a b => a ≠ b)
        (out.entries.map (entryProteinIn [r1, r2, r3])) ∧
      (out.entries.map (fun e => e.recipe_id)).getLast? = some none ∧
      (∀ p : ProteinType,
        2 ≤ (out.entries.map (entryProteinIn [r1, r2, r3])).countP
          (fun o => o == some p) →
        ∀ q : ProteinType,
          some q ∈ out.entries.map (entryProteinIn [r1, r2, r3])) := by
  have hne' : ([r1, r2, r3] : List Recipe).isEmpty = false := rfl
  have hlock : ∀ d,
      planLockedOf none (generateDinnerDates ws 4 cs.start_week_on) d = none :=
    fun _ => rfl
  obtain ⟨hk1, hk2, hk3, hk4, hk5⟩ := threeRecipeRun next cs r1 r2 r3 hnd hp1 hp2 hp3
    (generateDinnerDates ws 4 cs.start_week_on)
    (planLockedOf none (generateDinnerDates ws 4 cs.start_week_on))
    (getRecentlyUsed history ws cs.avoid_repeat_weeks)
    (seedState (planSeedString ws seed)) hlock (by simp [generateDinnerDates])
  exact ⟨_, _, generateMealPlan_ok helig hne', hk1, hk2, hk3, hk4, hk5⟩

/-- Witness for C8 at a concrete three-recipe catalog. -/
theorem C8_witness :
    (getEligibleRecipes
        [plainRecipe "c" (some ProteinType.chicken),
         plainRecipe "b" (some ProteinType.beef),
         plainRecipe "v" (some ProteinType.vegetarian)] defaultConstraints
      = .ok [plainRecipe "c" (some ProteinType.chicken),
             plainRecipe "b" (some ProteinType.beef),
             plainRecipe "v" (some ProteinType.vegetarian)]) ∧
    defaultConstraints.balance_protein_types = true ∧
    (["c", "b", "v"] : List String).Nodup ∧
    (∃ out gf,
      generateMealPlan constNext 0
          [plainRecipe "c" (some ProteinType.chicken),
           plainRecipe "b" (some ProteinType.beef),
           plainRecipe "v" (some ProteinType.vegetarian)] [] 4 4 defaultConstraints
          none none = .ok (out, gf) ∧
      out.entries.length = 4 ∧
      (out.entries.map (entryProteinIn
          [plainRecipe "c" (some ProteinType.chicken),
           plainRecipe "b" (some ProteinType.beef),
           plainRecipe "v" (some ProteinType.vegetarian)])).Perm
        [some ProteinType.chicken, some ProteinType.beef,
         some ProteinType.vegetarian, none] ∧
      List.Chain' (fun a b => a ≠ b)
        (out.entries.map (entryProteinIn
          [plainRecipe "c" (some ProteinType.chicken),
           plainRecipe "b" (some ProteinType.beef),
           plainRecipe "v" (some ProteinType.vegetarian)])) ∧
      (out.entries.map (fun e => e.recipe_id)).getLast? = some none ∧
      (∀ p : ProteinType,
        2 ≤ (out.entries.map (entryProteinIn
            [plainRecipe "c" (some ProteinType.chicken),
             plainRecipe "b" (some ProteinType.beef),
             plainRecipe "v" (some ProteinType.vegetarian)])).countP
          (fun o => o == some p) →
        ∀ q : ProteinType,
          some q ∈ out.entries.map (entryProteinIn
            [plainRecipe "c" (some ProteinType.chicken),
             plainRecipe "b" (some ProteinType.beef),
             plainRecipe "v" (some ProteinType.vegetarian)]))) :=
  ⟨rfl, rfl, by decide,
    C8_protein_rotation_scenario constNext 0
      [plainRecipe "c" (some ProteinType.chicken),
       plainRecipe "b" (some ProteinType.beef),
       plainRecipe "v" (some ProteinType.vegetarian)] [] 4 defaultConstraints none
      (plainRecipe "c" (some ProteinType.chicken))
      (plainRecipe "b" (some ProteinType.beef))
      (plainRecipe "v" (some ProteinType.vegetarian))
      rfl rfl (by decide) rfl rfl rfl rfl rfl rfl⟩
